import Mathlib

/-!
Verification of the semantic-search service and its SQL-to-vector-store
ingest pipeline.  Shallow embedding of:
  * `web_service/app.py`  — search orchestration, pagination, auth middleware,
  * `web_service/database.py` — votes, approvals, token usage upserts,
  * `export-sql-backup-to-chromadb.py` — SQL string decoding, chunking,
    segment construction.
Machine integers of the Python source are modelled as `Nat`/`Int`;
Python strings are Lean `String`s, or `List Nat` of Unicode codepoints
where surrogate codepoints matter (`decode_sql_string`).
-/

namespace Spec2Proof

/-! ### Multi-model search planning (`multi_model_search`, app.py lines 881-892)

```python
model_count = len(ordered_ids)
per_model_limit = (
    payload.top_k
    if model_count == 1
    else min(payload.top_k, math.ceil(20 / model_count))
)
overall_limit = (
    per_model_limit
    if model_count == 1
    else min(per_model_limit * model_count, 20)
)
fetch_n = min(max(per_model_limit, payload.top_k), settings.max_estimated_results)
```
`math.ceil (20 / n)` on a float is exact for the admissible
`model_count ∈ {1, 2, 3}` (deduplicated `model_ids`, schema caps 3), and is
modelled by the `Nat` ceiling division `(20 + n - 1) / n`. -/

def ceilDiv20 (modelCount : Nat) : Nat := (20 + modelCount - 1) / modelCount

def perModelLimit (topK modelCount : Nat) : Nat :=
  if modelCount = 1 then topK else min topK (ceilDiv20 modelCount)

def overallLimit (topK modelCount : Nat) : Nat :=
  if modelCount = 1 then perModelLimit topK modelCount
  else min (perModelLimit topK modelCount * modelCount) 20

def fetchN (topK modelCount maxEstimatedResults : Nat) : Nat :=
  min (max (perModelLimit topK modelCount) topK) maxEstimatedResults

/-! ### Single-model search pagination (`search_documents`, app.py lines 591-597 and 699-731)

```python
if settings.enable_pagination:
    start_idx = (payload.page - 1) * payload.page_size
    end_idx = start_idx + payload.page_size
    ids = ids[start_idx:end_idx]             # (same slice for distances/documents/metadatas)
...
if settings.enable_pagination:
    all_results_count = len(results.get("ids", [[]])[0])
    estimated_total = None
    has_next_page = False
    total_pages = None
    if settings.enable_estimated_results:
        if all_results_count >= settings.max_estimated_results:
            estimated_total = "1000+"
            has_next_page = True
        else:
            estimated_total = str(all_results_count)
            has_next_page = (payload.page * payload.page_size) < all_results_count
            total_pages = (int(estimated_total) + payload.page_size - 1) // payload.page_size
    else:
        has_next_page = len(response_items) == payload.page_size
    pagination = PaginationInfo(page=..., has_previous_page=payload.page > 1, ...)
```
The fetched window (the pre-slice `ids` list returned by the vector store) is
the input; the four parallel result arrays get the same slice, so one list of
ids stands for all of them. -/

structure PaginationInfo where
  page : Nat
  pageSize : Nat
  totalPages : Option Nat
  hasNextPage : Bool
  hasPreviousPage : Bool
  estimatedTotalResults : Option String
  deriving Repr, DecidableEq

/-- Python slice `xs[start:end]` for `0 ≤ start ≤ end`. -/
def pySlice {α : Type} (xs : List α) (start stop : Nat) : List α :=
  (xs.take stop).drop start

def paginateWindow (page pageSize : Nat) (ids : List String) : List String :=
  pySlice ids ((page - 1) * pageSize) ((page - 1) * pageSize + pageSize)

def paginationInfoOf (page pageSize allResultsCount returnedCount : Nat)
    (enableEstimatedResults : Bool) (maxEstimatedResults : Nat) : PaginationInfo :=
  if enableEstimatedResults then
    if maxEstimatedResults ≤ allResultsCount then
      { page := page, pageSize := pageSize, totalPages := none,
        hasNextPage := true, hasPreviousPage := decide (1 < page),
        estimatedTotalResults := some "1000+" }
    else
      { page := page, pageSize := pageSize,
        totalPages := some ((allResultsCount + pageSize - 1) / pageSize),
        hasNextPage := decide (page * pageSize < allResultsCount),
        hasPreviousPage := decide (1 < page),
        estimatedTotalResults := some (toString allResultsCount) }
  else
    { page := page, pageSize := pageSize, totalPages := none,
      hasNextPage := decide (returnedCount = pageSize),
      hasPreviousPage := decide (1 < page), estimatedTotalResults := none }

/-- The pagination-enabled tail of `search_documents`: slice the fetched
window, then build the `PaginationInfo` from the pre-slice count and the
returned count. -/
def searchPaginate (page pageSize : Nat) (fetchedIds : List String)
    (enableEstimatedResults : Bool) (maxEstimatedResults : Nat) :
    List String × PaginationInfo :=
  let paged := paginateWindow page pageSize fetchedIds
  (paged,
   paginationInfoOf page pageSize fetchedIds.length paged.length
     enableEstimatedResults maxEstimatedResults)

/-! ### Auth / rate-limit middleware (`auth_and_rate_limit_middleware`, app.py
lines 2169-2266; `get_api_token` database.py lines 1222-1252;
`increment_token_usage` / `get_token_usage_today` database.py lines 1255-1289)

```python
public_paths = ["/", "/health", "/docs", "/redoc", "/openapi.json", "/static",
                "/approved-queries", "/admin"]
if any(request.url.path.startswith(path) for path in public_paths):
    return await call_next(request)
if settings.enable_api_auth:
    authorization = request.headers.get("Authorization")
    if not authorization: return 401
    if not authorization.startswith("Bearer "): return 401
    token = authorization[7:].strip()
    token_info = get_api_token(sha256(token))      # active token & active user only
    if not token_info: return 401
    if token_info["expires_at"] and utcnow() > token_info["expires_at"]: return 401
    usage_today = get_token_usage_today(token_id)
    if usage_today >= rate_limit: return 429 (Retry-After: 86400)
    increment_token_usage(token_id)                # upsert (token_id, date) += 1
    return await call_next(request)
else:
    return await call_next(request)
```
SHA-256 is kept abstract (an arbitrary `String → String` argument);
datetimes and UTC dates are modelled as `Nat` ticks. -/

structure TokenRow where
  hash : String
  tokenId : Nat
  rateLimitPerDay : Nat
  expiresAt : Option Nat
  isActive : Bool
  userIsActive : Bool
  deriving Repr, DecidableEq

structure UsageRow where
  tokenId : Nat
  date : Nat
  requestCount : Nat
  deriving Repr, DecidableEq

/-- Python `s.startswith(p)` over the codepoint sequences. -/
def pyStartsWith (s p : String) : Bool :=
  p.data.isPrefixOf s.data

/-- Python `s.strip()` (whitespace strip at both ends) over codepoints. -/
def pyStrip (cs : List Char) : List Char :=
  ((cs.dropWhile Char.isWhitespace).reverse.dropWhile Char.isWhitespace).reverse

/-- `get_api_token`: `WHERE t.token = ? AND t.is_active = 1 AND u.is_active = 1`,
`fetchone`. -/
def getApiToken (tokens : List TokenRow) (tokenHash : String) : Option TokenRow :=
  tokens.find? (fun r => r.hash == tokenHash && r.isActive && r.userIsActive)

/-- `get_token_usage_today`: the `request_count` of the unique
`(token_id, date)` row, or 0. -/
def getTokenUsageToday (usage : List UsageRow) (tid date : Nat) : Nat :=
  match usage.find? (fun u => u.tokenId == tid && u.date == date) with
  | some u => u.requestCount
  | none => 0

/-- `increment_token_usage`: `INSERT ... ON CONFLICT(token_id, date) DO UPDATE
SET request_count = request_count + 1` (the table is unique on
`(token_id, date)`, so updating every matching row is the upsert). -/
def incrementTokenUsage (usage : List UsageRow) (tid date : Nat) : List UsageRow :=
  if (usage.find? (fun u => u.tokenId == tid && u.date == date)).isSome then
    usage.map (fun u =>
      if u.tokenId == tid && u.date == date then
        { u with requestCount := u.requestCount + 1 }
      else u)
  else usage ++ [⟨tid, date, 1⟩]

/-- `if token_info["expires_at"]: if datetime.utcnow() > expires_at: 401`. -/
def tokenExpired (info : TokenRow) (now : Nat) : Bool :=
  match info.expiresAt with
  | some e => decide (e < now)
  | none => false

def publicPaths : List String :=
  ["/", "/health", "/docs", "/redoc", "/openapi.json", "/static",
   "/approved-queries", "/admin"]

/-- `any(request.url.path.startswith(path) for path in public_paths)`. -/
def isPublicPath (path : String) : Bool :=
  publicPaths.any (fun p => pyStartsWith path p)

inductive MwOutcome where
  | forwarded (authenticated : Bool) : MwOutcome
  | rejected (statusCode : Nat) (retryAfter : Option String) : MwOutcome
  deriving Repr, DecidableEq

/-- The middleware as a transition on the usage table: result and updated
`api_token_usage` rows. -/
def authRateLimitMiddleware (enableApiAuth : Bool) (sha256 : List Char → String)
    (tokens : List TokenRow) (now today : Nat) (path : String)
    (authorization : Option String) (usage : List UsageRow) :
    MwOutcome × List UsageRow :=
  if isPublicPath path then (.forwarded false, usage)
  else if enableApiAuth then
    match authorization with
    | none => (.rejected 401 none, usage)
    | some auth =>
      if ¬ pyStartsWith auth "Bearer " then (.rejected 401 none, usage)
      else
        -- token = authorization[7:].strip(); token_hash = sha256(token)
        match getApiToken tokens (sha256 (pyStrip (auth.data.drop 7))) with
        | none => (.rejected 401 none, usage)
        | some info =>
          if tokenExpired info now then (.rejected 401 none, usage)
          else if info.rateLimitPerDay ≤ getTokenUsageToday usage info.tokenId today then
            (.rejected 429 (some "86400"), usage)
          else
            (.forwarded true, incrementTokenUsage usage info.tokenId today)
  else (.forwarded false, usage)

/-- A sequence of identical requests processed by the middleware, threading the
`api_token_usage` table: the per-request outcomes and the final table. -/
def runAuthRequests (enableApiAuth : Bool) (sha256 : List Char → String)
    (tokens : List TokenRow) (now today : Nat) (path : String)
    (authorization : Option String) :
    Nat → List UsageRow → List MwOutcome × List UsageRow
  | 0, usage => ([], usage)
  | Nat.succ n, usage =>
    let step := authRateLimitMiddleware enableApiAuth sha256 tokens now today
      path authorization usage
    let rest := runAuthRequests enableApiAuth sha256 tokens now today path
      authorization n step.2
    (step.1 :: rest.1, rest.2)

/-! ### Search votes (`save_search_vote`, database.py lines 997-1055; unique
index `idx_search_votes_unique` on
`(guest_user_id, query, COALESCE(model_id,-1), COALESCE(result_id,''))`,
database.py lines 182-185)

```python
if vote_type not in ("like", "dislike"): raise ValueError(...)
normalized_result_id = result_id or None
DELETE FROM search_votes
 WHERE guest_user_id = ? AND query = ?
   AND ((model_id IS NULL AND ? IS NULL) OR model_id = ?)
   AND ((result_id IS NULL AND ? IS NULL) OR result_id = ?)
INSERT INTO search_votes (guest_user_id, query, model_id, result_id, vote_type,
                          created_at) VALUES (...)
```
SQL `NULL` is `Option.none`; the `DELETE` predicate is exactly `Option`
equality of the stored column with the (normalized) argument.  A raised
`ValueError` leaves the table unchanged. -/

structure VoteRow where
  guestUserId : String
  query : String
  modelId : Option Int
  resultId : Option String
  voteType : String
  createdAt : Nat
  deriving Repr, DecidableEq

structure VoteCall where
  guestUserId : String
  query : String
  voteType : String
  modelId : Option Int
  resultId : Option String
  deriving Repr, DecidableEq

/-- `normalized_result_id = result_id or None` (empty string is falsy). -/
def normResultId : Option String → Option String
  | some "" => none
  | r => r

/-- Row matches the `(guest_user_id, query, model_id|null, result_id|null)`
tuple (the `DELETE` predicate / the unique-index key). -/
def voteMatches (g q : String) (m : Option Int) (r : Option String)
    (row : VoteRow) : Bool :=
  row.guestUserId == g && row.query == q && row.modelId == m && row.resultId == r

/-- A call addresses the tuple `(g, q, m, r)` (after result-id normalization). -/
def voteKey (g q : String) (m : Option Int) (r : Option String)
    (c : VoteCall) : Bool :=
  c.guestUserId == g && c.query == q && c.modelId == m
    && normResultId c.resultId == r

def saveSearchVote (rows : List VoteRow) (c : VoteCall) (now : Nat) :
    List VoteRow :=
  if c.voteType ≠ "like" ∧ c.voteType ≠ "dislike" then rows
  else
    (rows.filter (fun row =>
        ! voteMatches c.guestUserId c.query c.modelId (normResultId c.resultId)
            row))
      ++ [⟨c.guestUserId, c.query, c.modelId, normResultId c.resultId,
           c.voteType, now⟩]

def applyVotes (rows : List VoteRow) : List VoteCall → List VoteRow
  | [] => rows
  | c :: cs => applyVotes (saveSearchVote rows c 0) cs

/-! ### Query approvals (`update_query_search_count` database.py lines 980-994;
`save_search` database.py lines 247-278; `get_query_approvals` database.py
lines 867-907; `get_approved_queries` app.py lines 1966-2002)

```python
INSERT INTO query_approvals (query, status, search_count, last_searched_at)
VALUES (?, 'approved', 1, ?)
ON CONFLICT(query) DO UPDATE SET
    search_count = search_count + 1, last_searched_at = ?
...
SELECT ... FROM query_approvals WHERE search_count >= ?
  [AND status = ?]
ORDER BY search_count DESC, last_searched_at DESC LIMIT ?
...
if not settings.show_approved_queries: return QueryApprovalsResponse([], {})
queries = get_query_approvals(limit=settings.approved_queries_limit,
                              min_count=settings.approved_queries_min_count,
                              status="approved")
```
`query_approvals` is unique on `query`; the upsert's `DO UPDATE` is modelled
as a map over the (at most one) conflicting row.  `save_search` also appends
a `search_history` row; payload fields no claim depends on (`took_ms`,
`results_json`) are left out of the history row.  Timestamps are `Nat`
ticks. -/

structure ApprovalRow where
  query : String
  status : String
  searchCount : Nat
  lastSearchedAt : Nat
  approvedAt : Option Nat
  rejectedAt : Option Nat
  notes : Option String
  deriving Repr, DecidableEq

structure HistoryRow where
  query : String
  resultCount : Nat
  timestamp : Nat
  collection : String
  provider : String
  model : String
  deriving Repr, DecidableEq

def updateQuerySearchCount (rows : List ApprovalRow) (q : String) (now : Nat) :
    List ApprovalRow :=
  if (rows.find? (fun r => r.query == q)).isSome then
    rows.map (fun r =>
      if r.query == q then
        { r with searchCount := r.searchCount + 1, lastSearchedAt := now }
      else r)
  else rows ++ [⟨q, "approved", 1, now, none, none, none⟩]

/-- `save_search`: append a history row, then bump the approval counter. -/
def saveSearch (history : List HistoryRow) (approvals : List ApprovalRow)
    (q : String) (resultCount : Nat) (collection provider model : String)
    (now : Nat) : List HistoryRow × List ApprovalRow :=
  (history ++ [⟨q, resultCount, now, collection, provider, model⟩],
   updateQuerySearchCount approvals q now)

/-- The `WHERE search_count >= ? [AND status = ?]` selection. -/
def queryApprovalsFilter (minCount : Nat) (status : Option String)
    (r : ApprovalRow) : Bool :=
  decide (minCount ≤ r.searchCount)
    && (match status with | some s => r.status == s | none => true)

/-- `ORDER BY search_count DESC, last_searched_at DESC`. -/
def approvalOrder (a b : ApprovalRow) : Bool :=
  decide (b.searchCount < a.searchCount)
    || (a.searchCount == b.searchCount
        && decide (b.lastSearchedAt ≤ a.lastSearchedAt))

def getQueryApprovals (rows : List ApprovalRow) (limit minCount : Nat)
    (status : Option String) : List ApprovalRow :=
  (((rows.filter (queryApprovalsFilter minCount status)).mergeSort
      approvalOrder).take limit)

/-- `GET /approved-queries`: empty when `show_approved_queries` is off, else
`get_query_approvals(limit, min_count, status="approved")`. -/
def getApprovedQueriesListing (rows : List ApprovalRow)
    (showApprovedQueries : Bool) (limit minCount : Nat) : List ApprovalRow :=
  if showApprovedQueries then
    getQueryApprovals rows limit minCount (some "approved")
  else []

/-- `n` saved searches for query `q` (the approval-table component of
`save_search` applied `n` times, at ticks `0, 1, …`). -/
def repeatedSaves (rows : List ApprovalRow) (q : String) : Nat → List ApprovalRow
  | 0 => rows
  | n + 1 => updateQuerySearchCount (repeatedSaves rows q n) q n

/-! ### Paragraph chunking (`segment_paragraph`,
export-sql-backup-to-chromadb.py lines 368-405)

```python
if len(paragraph) <= max_length:
    return [(paragraph, (0, len(paragraph)))]
segments = []
step_size = max(1, max_length - context_length) if context_length > 0 else max_length
start = 0
while start < len(paragraph):
    end = min(start + max_length, len(paragraph))
    segments.append((paragraph[start:end], (start, end)))
    if end >= len(paragraph):
        break
    start += step_size
return segments
```
Python's `max_length - context_length` may be negative, in which case
`max(1, ·)` picks 1 — `Nat` truncated subtraction composed with `max 1`
agrees.  The loop is modelled with fuel `len(paragraph)`, which is enough for
any positive step; when `max_length = 0` and `context_length = 0` the Python
loop never terminates, and the model truncates instead (no claim touches that
degenerate configuration). -/

structure Chunk where
  text : List Char
  start : Nat
  stop : Nat
  deriving Repr, DecidableEq

def segStep (maxLength contextLength : Nat) : Nat :=
  if 0 < contextLength then max 1 (maxLength - contextLength) else maxLength

def segLoop (p : List Char) (maxLength step : Nat) :
    Nat → Nat → List Chunk
  | 0, _ => []
  | fuel + 1, start =>
    if start < p.length then
      -- end = min(start + max_length, len(paragraph)) inlined
      ⟨pySlice p start (min (start + maxLength) p.length), start,
        min (start + maxLength) p.length⟩ ::
        (if p.length ≤ min (start + maxLength) p.length then []
         else segLoop p maxLength step fuel (start + step))
    else []

def segmentParagraph (p : List Char) (maxLength contextLength : Nat) :
    List Chunk :=
  if p.length ≤ maxLength then [⟨p, 0, p.length⟩]
  else segLoop p maxLength (segStep maxLength contextLength) p.length 0

/-! ### Segment construction (`build_segments`,
export-sql-backup-to-chromadb.py lines 430-570, with `ParagraphPayload` line
81 and `clean_metadata_for_chroma` line 408)

`build_segments` first derives `text = html_to_text(record.page_text_html)`
and `paragraphs = prepare_paragraphs(text, min_paragraph_lines)`; the HTML
stripper and paragraph normalizer are upstream of everything claim C5 talks
about, so the model takes `text` and `paragraphs` as inputs and the theorem
quantifies over them (it holds for *every* output those stages could
produce).  The random `uuid.uuid4().hex[:8]` id suffix and the SHA-256 page
hash are opaque parameters.  All metadata values built here are already
scalars (`str`/`int`/`float`/`bool`), so `clean_metadata_for_chroma` leaves
them unchanged and the cleaned dict is modelled directly as a typed record;
dict keys the code does not set for a given document kind (e.g.
`paragraph_line_count` on the page-level document, `page_level` on paragraph
segments) take the default the readers use (`metadata.get(...)` false-y
defaults: `false`, `0`, `none`).  `importance` (a Python float, `title_weight`
or `1.0`) is modelled as `Rat`. -/

structure ParagraphPayload where
  text : List Char
  lineCount : Nat
  sourceIndices : List Nat
  isTitle : Bool
  deriving Repr, DecidableEq

structure BookPageRecord where
  id : Int
  bookId : Int
  bookTitle : String
  sectionId : Int
  sectionTitle : String
  pageId : Int
  link : String
  error : String
  deriving Repr, DecidableEq

structure SegMeta where
  bookId : Int
  bookTitle : String
  sectionId : Int
  sectionTitle : String
  pageId : Int
  paragraphIndex : Int
  segmentIndex : Int
  segmentStart : Nat
  segmentEnd : Nat
  segmentLength : Nat
  paragraphLineCount : Nat
  paragraphIsTitle : Bool
  paragraphSources : String
  importance : Rat
  sourceLink : String
  recordId : Int
  hasError : Bool
  error : String
  pageLevel : Bool
  paragraphFullText : Option (List Char)
  pageFullText : Option (List Char)
  pageFullTextHash : Option String
  deriving Repr, DecidableEq

structure Segment where
  documentId : String
  text : List Char
  metadata : SegMeta
  deriving Repr, DecidableEq

/-- `",".join(map(str, payload.source_indices)) if ... else ""`. -/
def joinSources (ns : List Nat) : String :=
  if ns = [] then "" else String.intercalate "," (ns.map toString)

/-- One paragraph-level segment record (the metadata dict built in the inner
loop of `build_segments`). -/
def mkParagraphSegment (record : BookPageRecord) (uuidHex : String)
    (titleWeight : Rat) (paraIndex : Nat) (payload : ParagraphPayload)
    (segIndex : Nat) (ch : Chunk) : Segment :=
  -- paragraph_full_text = payload.text if len(payload.text) < 10000 else ""
  -- and the key is only added `if paragraph_full_text:` (non-empty)
  let pft := if payload.text.length < 10000 then payload.text else []
  { documentId := toString record.bookId ++ "-" ++ toString record.pageId
      ++ "-" ++ toString paraIndex ++ "-" ++ toString segIndex ++ "-" ++ uuidHex,
    text := ch.text,
    metadata :=
      { bookId := record.bookId,
        bookTitle := record.bookTitle,
        sectionId := record.sectionId,
        sectionTitle := record.sectionTitle,
        pageId := record.pageId,
        paragraphIndex := (paraIndex : Int),
        segmentIndex := (segIndex : Int),
        segmentStart := ch.start,
        segmentEnd := ch.stop,
        segmentLength := ch.text.length,
        paragraphLineCount := payload.lineCount,
        paragraphIsTitle := payload.isTitle,
        paragraphSources := joinSources payload.sourceIndices,
        importance := if payload.isTitle then titleWeight else 1,
        sourceLink := record.link,
        recordId := record.id,
        hasError := record.error ≠ "",
        error := record.error,
        pageLevel := false,
        paragraphFullText := if pft ≠ [] then some pft else none,
        pageFullText := none,
        pageFullTextHash := none } }

/-- The fallback whole-page segment appended when no paragraph produced any
segment but the page text is non-empty. -/
def mkFallbackSegment (record : BookPageRecord) (uuidHex : String)
    (text : List Char) : Segment :=
  { documentId := toString record.bookId ++ "-" ++ toString record.pageId
      ++ "-0-0-" ++ uuidHex,
    text := text,
    metadata :=
      { bookId := record.bookId,
        bookTitle := record.bookTitle,
        sectionId := record.sectionId,
        sectionTitle := record.sectionTitle,
        pageId := record.pageId,
        paragraphIndex := 0,
        segmentIndex := 0,
        segmentStart := 0,
        segmentEnd := text.length,
        segmentLength := text.length,
        paragraphLineCount := text.count '\n' + 1,
        paragraphIsTitle := false,
        paragraphSources := "0",
        importance := 1,
        sourceLink := record.link,
        recordId := record.id,
        hasError := record.error ≠ "",
        error := record.error,
        pageLevel := false,
        paragraphFullText := none,
        pageFullText := none,
        pageFullTextHash := none } }

/-- The optional page-level document (`page_level=True`,
`paragraph_index = segment_index = -1`; full text inline under 50 KB, else a
hash). -/
def mkPageLevelSegment (record : BookPageRecord) (uuidHex : String)
    (hashHex : String) (text : List Char) : Segment :=
  { documentId := toString record.bookId ++ "-" ++ toString record.pageId
      ++ "-page-" ++ uuidHex,
    text := text,
    metadata :=
      { bookId := record.bookId,
        bookTitle := record.bookTitle,
        sectionId := record.sectionId,
        sectionTitle := record.sectionTitle,
        pageId := record.pageId,
        paragraphIndex := -1,
        segmentIndex := -1,
        segmentStart := 0,
        segmentEnd := text.length,
        segmentLength := text.length,
        paragraphLineCount := 0,
        paragraphIsTitle := false,
        paragraphSources := "",
        importance := 1,
        sourceLink := record.link,
        recordId := record.id,
        hasError := record.error ≠ "",
        error := record.error,
        pageLevel := true,
        paragraphFullText := none,
        pageFullText := if text.length < 50000 then some text else none,
        pageFullTextHash := if text.length < 50000 then none
                            else some hashHex } }

/-- `build_segments` after the `html_to_text` / `prepare_paragraphs` stages:
chunk every paragraph, then the empty-fallback, then the optional page-level
document. -/
def buildSegments (record : BookPageRecord) (text : List Char)
    (paragraphs : List ParagraphPayload) (maxLength contextLength : Nat)
    (titleWeight : Rat) (includePageLevel : Bool) (uuidHex hashHex : String) :
    List Segment :=
  let paraSegs :=
    (paragraphs.enum.map (fun pi =>
      ((segmentParagraph pi.2.text maxLength contextLength).enum.map
        (fun si => mkParagraphSegment record uuidHex titleWeight pi.1 pi.2
          si.1 si.2)))).flatten
  let withFallback :=
    if paraSegs = [] ∧ text ≠ [] then
      paraSegs ++ [mkFallbackSegment record uuidHex text]
    else paraSegs
  if includePageLevel ∧ text ≠ [] then
    withFallback ++ [mkPageLevelSegment record uuidHex hashHex text]
  else withFallback

/-! ### Multi-model round-robin merge (`multi_model_search`, app.py lines
1044-1071)

```python
successful_model_ids = [mid for mid in ordered_ids if mid in per_model_results]
successful_count = len(successful_model_ids)
combined_results = []
if successful_count == 0:
    combined_results = []
elif successful_count == 1:
    combined_results = per_model_results[successful_model_ids[0]][:per_model_limit]
else:
    seen_doc_ids = set()
    max_depth = max((len(per_model_results.get(mid, [])) for mid in successful_model_ids), default=0)
    for depth in range(max_depth):
        for model_id in successful_model_ids:
            if len(combined_results) >= overall_limit:
                break
            model_items = per_model_results.get(model_id, [])
            if depth < len(model_items):
                item = model_items[depth]
                doc_id = item.get("id")
                if doc_id and doc_id not in seen_doc_ids:
                    combined_results.append(item)
                    seen_doc_ids.add(doc_id)
        if len(combined_results) >= overall_limit:
            break
```
The per-model result lists (built from the vector-store responses, one list
per model in submission order) are the input; `per_model_results` is an
association list keyed by model id, the `seen_doc_ids` set is a list with
membership.  An item keeps its dedup key `id` (always a `str(doc_id)`) and
its source model. -/

structure MItem where
  id : String
  modelId : Nat
  document : Option String
  deriving Repr, DecidableEq

def lookupResults (perModel : List (Nat × List MItem)) (m : Nat) :
    Option (List MItem) :=
  (perModel.find? (fun e => e.1 == m)).map (fun e => e.2)

def successfulIds (orderedIds : List Nat)
    (perModel : List (Nat × List MItem)) : List Nat :=
  orderedIds.filter (fun m => (lookupResults perModel m).isSome)

/-- The inner `for model_id in successful_model_ids` loop at one depth,
threading `(seen_doc_ids, combined_results)`. -/
def rrInner (perModel : List (Nat × List MItem)) (overall depth : Nat) :
    List Nat → List String × List MItem → List String × List MItem
  | [], st => st
  | m :: rest, st =>
    if overall ≤ st.2.length then st
    else
      rrInner perModel overall depth rest
        (match ((lookupResults perModel m).getD [])[depth]? with
         | some item =>
           if item.id ≠ "" ∧ item.id ∉ st.1 then
             (item.id :: st.1, st.2 ++ [item])
           else st
         | none => st)

/-- The outer `for depth in range(max_depth)` loop. -/
def rrOuter (perModel : List (Nat × List MItem)) (models : List Nat)
    (overall : Nat) : Nat → Nat → List String × List MItem →
    List String × List MItem
  | 0, _, st => st
  | fuel + 1, depth, st =>
    if overall ≤ (rrInner perModel overall depth models st).2.length then
      rrInner perModel overall depth models st
    else
      rrOuter perModel models overall fuel (depth + 1)
        (rrInner perModel overall depth models st)

def maxDepth (perModel : List (Nat × List MItem)) (models : List Nat) : Nat :=
  (models.map (fun m => ((lookupResults perModel m).getD []).length)).foldr
    max 0

def combineResults (orderedIds : List Nat)
    (perModel : List (Nat × List MItem)) (perLimit overall : Nat) :
    List MItem :=
  match successfulIds orderedIds perModel with
  | [] => []
  | [m] => ((lookupResults perModel m).getD []).take perLimit
  | m1 :: m2 :: rest =>
    (rrOuter perModel (m1 :: m2 :: rest) overall
      (maxDepth perModel (m1 :: m2 :: rest)) 0 ([], [])).2

/-! The claim's own description of the multi-model merge ("iterate depths
`0..max_depth`; at each depth take each successful model's depth-th hit in
submission order unless its `document_id` was already emitted; stop at
`overall_limit`"), to be compared with the code's merge.  The only textual
difference is the absence of the code's `doc_id and` non-emptiness test. -/

def rrInnerSpec (perModel : List (Nat × List MItem)) (overall depth : Nat) :
    List Nat → List String × List MItem → List String × List MItem
  | [], st => st
  | m :: rest, st =>
    if overall ≤ st.2.length then st
    else
      rrInnerSpec perModel overall depth rest
        (match ((lookupResults perModel m).getD [])[depth]? with
         | some item =>
           if item.id ∉ st.1 then (item.id :: st.1, st.2 ++ [item]) else st
         | none => st)

def rrOuterSpec (perModel : List (Nat × List MItem)) (models : List Nat)
    (overall : Nat) : Nat → Nat → List String × List MItem →
    List String × List MItem
  | 0, _, st => st
  | fuel + 1, depth, st =>
    if overall ≤ (rrInnerSpec perModel overall depth models st).2.length then
      rrInnerSpec perModel overall depth models st
    else
      rrOuterSpec perModel models overall fuel (depth + 1)
        (rrInnerSpec perModel overall depth models st)

def roundRobinMergeSpec (perModel : List (Nat × List MItem))
    (models : List Nat) (overall : Nat) : List MItem :=
  (rrOuterSpec perModel models overall (maxDepth perModel models) 0
    ([], [])).2

/-! ### SQL string decoding (`decode_sql_string`,
export-sql-backup-to-chromadb.py lines 89-187)

Python strings are sequences of Unicode codepoints, including lone
surrogates (which `chr`/`\uXXXX` can create and which make `str.encode`
fail); the model is `List Nat`.  Key Python facts encoded here:
`s.encode("utf-8")` (and hence the `encode/decode` round-trip test) raises
exactly when `s` contains a surrogate codepoint; `s.encode("latin-1")`
raises exactly when some codepoint exceeds 255.  `str.replace` scans left to
right replacing non-overlapping occurrences and continuing after each
replacement; it is modelled with explicit fuel `len(s)` (enough, since every
step consumes at least one character).  The two `re.sub` passes for
`\uXXXX` / `\xXX` advance one character past an unmatched backslash, like the
regex engine.  `codecs` `unicode_escape` (the pure-ASCII path) is Python
stdlib, modelled separately below; `\N{...}` name lookup is not modelled and
is treated as a decode failure (the outer `except` then returns the input
verbatim) — no claim exercises that path, since C6 inputs contain non-ASCII
characters. -/

/-- Python `sub in s` (substring containment). -/
def containsSeq (sub : List Nat) : List Nat → Bool
  | [] => sub.isEmpty
  | c :: rest => sub.isPrefixOf (c :: rest) || containsSeq sub rest

/-- Python `s.replace(sub, rep)` with explicit fuel (the scan consumes at
least one character per step, so fuel `len(s)` is always enough; `replace`
is never called with an empty pattern here). -/
def pyReplaceAux (sub rep : List Nat) : Nat → List Nat → List Nat
  | 0, l => l
  | _ + 1, [] => []
  | fuel + 1, c :: rest =>
    if sub ≠ [] ∧ sub <+: c :: rest then
      rep ++ pyReplaceAux sub rep fuel ((c :: rest).drop sub.length)
    else c :: pyReplaceAux sub rep fuel rest

def pyReplace (sub rep l : List Nat) : List Nat :=
  pyReplaceAux sub rep l.length l

def isHexDigitCp (c : Nat) : Bool :=
  (48 ≤ c && c ≤ 57) || (97 ≤ c && c ≤ 102) || (65 ≤ c && c ≤ 70)

def hexVal (c : Nat) : Nat :=
  if c ≤ 57 then c - 48 else if c ≤ 70 then c - 55 else c - 87

/-! `re.sub(r"\\u([0-9a-fA-F]{4})", chr(int(hex, 16)), ...)`: replace each
`\uXXXX` with its codepoint (which may be a lone surrogate), advancing one
character when the backslash starts no match.  Fueled scan; each step
consumes at least one character, so fuel `len(s)` suffices. -/

/-- After a backslash, recognize `u` + 4 hex digits: the decoded codepoint
and the remainder. -/
def uEscapeArg : List Nat → Option (Nat × List Nat)
  | u :: h1 :: h2 :: h3 :: h4 :: rest2 =>
    if u = 117 && isHexDigitCp h1 && isHexDigitCp h2 && isHexDigitCp h3
        && isHexDigitCp h4 then
      some (hexVal h1 * 4096 + hexVal h2 * 256 + hexVal h3 * 16 + hexVal h4,
        rest2)
    else none
  | _ => none

def subUnicodeEscapesAux : Nat → List Nat → List Nat
  | 0, l => l
  | _ + 1, [] => []
  | fuel + 1, c :: rest =>
    if c = 92 then
      match uEscapeArg rest with
      | some (cp, rest2) => cp :: subUnicodeEscapesAux fuel rest2
      | none => c :: subUnicodeEscapesAux fuel rest
    else c :: subUnicodeEscapesAux fuel rest

def subUnicodeEscapes (l : List Nat) : List Nat :=
  subUnicodeEscapesAux l.length l

/-- `re.sub(r"\\x([0-9a-fA-F]{2})", chr(int(hex, 16)), ...)`. -/
def xEscapeArg : List Nat → Option (Nat × List Nat)
  | x :: h1 :: h2 :: rest2 =>
    if x = 120 && isHexDigitCp h1 && isHexDigitCp h2 then
      some (hexVal h1 * 16 + hexVal h2, rest2)
    else none
  | _ => none

def subHexEscapesAux : Nat → List Nat → List Nat
  | 0, l => l
  | _ + 1, [] => []
  | fuel + 1, c :: rest =>
    if c = 92 then
      match xEscapeArg rest with
      | some (cp, rest2) => cp :: subHexEscapesAux fuel rest2
      | none => c :: subHexEscapesAux fuel rest
    else c :: subHexEscapesAux fuel rest

def subHexEscapes (l : List Nat) : List Nat :=
  subHexEscapesAux l.length l

/-- A codepoint in the surrogate range `U+D800 .. U+DFFF`
(`str.encode("utf-8")` fails exactly when one is present). -/
def hasSurrogate (v : List Nat) : Bool :=
  v.any (fun c => 55296 ≤ c && c ≤ 57343)

/-- `s.encode("latin-1")` succeeds iff every codepoint is ≤ 255. -/
def latin1Encodable (v : List Nat) : Bool :=
  v.all (fun c => c ≤ 255)

/-- UTF-8 decoding with replacement characters
(`bytes.decode("utf-8", errors="replace")`).  Only reachable after a
successful `encode("latin-1")` of a string whose `encode("utf-8")` failed —
which is impossible (surrogates exceed 255), as `pyUtf8RoundTrip_eq_self`
proves; kept to mirror the source's mojibake-reversal arm. -/
def utf8DecodeReplaceAux : Nat → List Nat → List Nat
  | 0, _ => []
  | _ + 1, [] => []
  | fuel + 1, b :: rest =>
    if b < 128 then b :: utf8DecodeReplaceAux fuel rest
    else if 194 ≤ b && b ≤ 223 then
      match rest with
      | b2 :: rest2 =>
        if 128 ≤ b2 && b2 ≤ 191 then
          ((b - 192) * 64 + (b2 - 128)) :: utf8DecodeReplaceAux fuel rest2
        else 65533 :: utf8DecodeReplaceAux fuel rest
      | [] => [65533]
    else if 224 ≤ b && b ≤ 239 then
      match rest with
      | b2 :: b3 :: rest3 =>
        if (128 ≤ b2 && b2 ≤ 191) && (128 ≤ b3 && b3 ≤ 191) then
          ((b - 224) * 4096 + (b2 - 128) * 64 + (b3 - 128))
            :: utf8DecodeReplaceAux fuel rest3
        else 65533 :: utf8DecodeReplaceAux fuel rest
      | _ => 65533 :: utf8DecodeReplaceAux fuel rest
    else if 240 ≤ b && b ≤ 244 then
      match rest with
      | b2 :: b3 :: b4 :: rest4 =>
        if (128 ≤ b2 && b2 ≤ 191) && (128 ≤ b3 && b3 ≤ 191)
            && (128 ≤ b4 && b4 ≤ 191) then
          ((b - 240) * 262144 + (b2 - 128) * 4096 + (b3 - 128) * 64
            + (b4 - 128)) :: utf8DecodeReplaceAux fuel rest4
        else 65533 :: utf8DecodeReplaceAux fuel rest
      | _ => 65533 :: utf8DecodeReplaceAux fuel rest
    else 65533 :: utf8DecodeReplaceAux fuel rest

def utf8DecodeReplace (l : List Nat) : List Nat :=
  utf8DecodeReplaceAux l.length l

/-- The `try: s.encode("utf-8").decode("utf-8") / except: try latin-1
mojibake reversal / except: return s` pattern used twice in
`decode_sql_string`. -/
def pyUtf8RoundTrip (v : List Nat) : List Nat :=
  if !hasSurrogate v then v
  else if latin1Encodable v then utf8DecodeReplace v
  else v

/-- Python stdlib `unicode_escape` codec on a pure-ASCII string (the
`value.encode("ascii").decode("unicode_escape")` path); `none` models a
raised `ValueError`/`UnicodeDecodeError` (caught by the enclosing `except`,
which returns the input).  Octal escapes, `\xXX`, `\uXXXX`, `\UXXXXXXXX`,
the single-character escapes, line continuation and the keep-unknown-escape
rule follow CPython; `\N{...}` (name database) is not modelled and decodes
as a failure.  Never exercised by the claims: C6 inputs contain non-ASCII
codepoints, which take the manual branch instead. -/
def pyUnicodeEscapeAux : Nat → List Nat → Option (List Nat)
  | 0, l => if l.isEmpty then some [] else none
  | _ + 1, [] => some []
  | fuel + 1, c :: rest =>
    if c ≠ 92 then (pyUnicodeEscapeAux fuel rest).map (fun d => c :: d)
    else
      match rest with
      | [] => none  -- trailing backslash
      | e :: rest2 =>
        if e = 10 then pyUnicodeEscapeAux fuel rest2  -- line continuation
        else if e = 110 then
          (pyUnicodeEscapeAux fuel rest2).map (fun d => 10 :: d)
        else if e = 114 then
          (pyUnicodeEscapeAux fuel rest2).map (fun d => 13 :: d)
        else if e = 116 then
          (pyUnicodeEscapeAux fuel rest2).map (fun d => 9 :: d)
        else if e = 34 then
          (pyUnicodeEscapeAux fuel rest2).map (fun d => 34 :: d)
        else if e = 39 then
          (pyUnicodeEscapeAux fuel rest2).map (fun d => 39 :: d)
        else if e = 92 then
          (pyUnicodeEscapeAux fuel rest2).map (fun d => 92 :: d)
        else if e = 97 then
          (pyUnicodeEscapeAux fuel rest2).map (fun d => 7 :: d)
        else if e = 98 then
          (pyUnicodeEscapeAux fuel rest2).map (fun d => 8 :: d)
        else if e = 102 then
          (pyUnicodeEscapeAux fuel rest2).map (fun d => 12 :: d)
        else if e = 118 then
          (pyUnicodeEscapeAux fuel rest2).map (fun d => 11 :: d)
        else if 48 ≤ e ∧ e ≤ 55 then
          -- up to three octal digits
          match rest2 with
          | d2 :: d3 :: rest3 =>
            if 48 ≤ d2 ∧ d2 ≤ 55 then
              if 48 ≤ d3 ∧ d3 ≤ 55 then
                (pyUnicodeEscapeAux fuel rest3).map
                  (fun d => ((e - 48) * 64 + (d2 - 48) * 8 + (d3 - 48)) :: d)
              else
                (pyUnicodeEscapeAux fuel (d3 :: rest3)).map
                  (fun d => ((e - 48) * 8 + (d2 - 48)) :: d)
            else
              (pyUnicodeEscapeAux fuel (d2 :: d3 :: rest3)).map
                (fun d => (e - 48) :: d)
          | [d2] =>
            if 48 ≤ d2 ∧ d2 ≤ 55 then
              (pyUnicodeEscapeAux fuel []).map
                (fun d => ((e - 48) * 8 + (d2 - 48)) :: d)
            else
              (pyUnicodeEscapeAux fuel [d2]).map (fun d => (e - 48) :: d)
          | [] => some [e - 48]
        else if e = 120 then  -- \xXX: exactly two hex digits or error
          match rest2 with
          | h1 :: h2 :: rest3 =>
            if isHexDigitCp h1 && isHexDigitCp h2 then
              (pyUnicodeEscapeAux fuel rest3).map
                (fun d => (hexVal h1 * 16 + hexVal h2) :: d)
            else none
          | _ => none
        else if e = 117 then  -- \uXXXX
          match rest2 with
          | h1 :: h2 :: h3 :: h4 :: rest3 =>
            if isHexDigitCp h1 && isHexDigitCp h2 && isHexDigitCp h3
                && isHexDigitCp h4 then
              (pyUnicodeEscapeAux fuel rest3).map
                (fun d => (hexVal h1 * 4096 + hexVal h2 * 256
                  + hexVal h3 * 16 + hexVal h4) :: d)
            else none
          | _ => none
        else if e = 85 then  -- \UXXXXXXXX
          match rest2 with
          | h1 :: h2 :: h3 :: h4 :: h5 :: h6 :: h7 :: h8 :: rest3 =>
            if isHexDigitCp h1 && isHexDigitCp h2 && isHexDigitCp h3
                && isHexDigitCp h4 && isHexDigitCp h5 && isHexDigitCp h6
                && isHexDigitCp h7 && isHexDigitCp h8 then
              let cp := hexVal h1 * 268435456 + hexVal h2 * 16777216
                + hexVal h3 * 1048576 + hexVal h4 * 65536
                + hexVal h5 * 4096 + hexVal h6 * 256 + hexVal h7 * 16
                + hexVal h8
              if cp ≤ 1114111 then
                (pyUnicodeEscapeAux fuel rest3).map (fun d => cp :: d)
              else none
            else none
          | _ => none
        else if e = 78 then none  -- \N{...}: name lookup not modelled
        else  -- unknown escape: kept verbatim
          (pyUnicodeEscapeAux fuel rest2).map (fun d => 92 :: e :: d)

def pyUnicodeEscapeDecode (l : List Nat) : Option (List Nat) :=
  pyUnicodeEscapeAux l.length l

/-- `"\\n" in value or "\\r" in value or "\\t" in value or '\\"' in value or
"\\\\" in value or "\\u" in value`. -/
def hasEscapeSequences (v : List Nat) : Bool :=
  containsSeq [92, 110] v || containsSeq [92, 114] v
    || containsSeq [92, 116] v || containsSeq [92, 34] v
    || containsSeq [92, 92] v || containsSeq [92, 117] v

/-- The `"\x00BACKSLASH\x00"` marker used to protect escaped backslashes. -/
def backslashMarker : List Nat := [0, 66, 65, 67, 75, 83, 76, 65, 83, 72, 0]

/-- `decode_sql_string` on a non-`None` value; codepoint lists stand for
Python strings.  `[78, 85, 76, 76]` is `"NULL"`. -/
def decodeSqlString (v : List Nat) : List Nat :=
  if v = [78, 85, 76, 76] then []
  else if !hasEscapeSequences v then
    pyUtf8RoundTrip v
  else if v.all (fun c => c < 128) then
    match pyUnicodeEscapeDecode v with
    | some d => d
    | none => v
  else
    pyUtf8RoundTrip
      (subHexEscapes (subUnicodeEscapes
        (pyReplace backslashMarker [92]
          (pyReplace [92, 39] [39]
            (pyReplace [92, 34] [34]
              (pyReplace [92, 116] [9]
                (pyReplace [92, 114] [13]
                  (pyReplace [92, 110] [10]
                    (pyReplace [92, 92] backslashMarker v)))))))))

/-- `decode_sql_string(None) = ""`. -/
def decodeSqlStringOpt : Option (List Nat) → List Nat
  | none => []
  | some v => decodeSqlString v

/-- Every backslash in the string begins a `\n` escape (no escaped
backslashes `\\`, no `\u`/`\x`/other escapes). -/
def onlyNEscapes : List Nat → Bool
  | [] => true
  | [c] => decide (c ≠ 92)
  | c :: c2 :: rest =>
    if c = 92 then (if c2 = 110 then onlyNEscapes rest else false)
    else onlyNEscapes (c2 :: rest)

/-! ## Theorems -/

/-- C2 counterexample: with 2 requested models and `top_k = 3`, the code
computes `per_model_limit = min(top_k, ceil(20/2)) = 3`, not
`ceil(20 / model_count) = 10` as the claim states. -/
theorem c2_per_model_limit_counterexample :
    perModelLimit 3 2 = 3 ∧ ceilDiv20 2 = 10 ∧ perModelLimit 3 2 ≠ ceilDiv20 2 := by
  decide

/-- C2 (amended): in `POST /search/multi` with more than one requested model,
`per_model_limit = min(top_k, ceil(20 / model_count))`, each model is queried
with `fetch_n = min(max(per_model_limit, top_k), max_estimated_results)`, and
the merged output cap is `overall_limit = min(per_model_limit * model_count, 20)`. -/
theorem c2_multi_model_limits (topK modelCount maxEst : Nat)
    (h : 2 ≤ modelCount) :
    perModelLimit topK modelCount = min topK (ceilDiv20 modelCount) ∧
    fetchN topK modelCount maxEst
      = min (max (perModelLimit topK modelCount) topK) maxEst ∧
    overallLimit topK modelCount
      = min (perModelLimit topK modelCount * modelCount) 20 := by
  have hne : modelCount ≠ 1 := by omega
  refine ⟨?_, rfl, ?_⟩
  · simp [perModelLimit, hne]
  · simp [overallLimit, hne]

/-- Witness for `c2_multi_model_limits` at `top_k = 3`, two models,
`max_estimated_results = 1000`. -/
theorem c2_multi_model_limits_witness :
    perModelLimit 3 2 = min 3 (ceilDiv20 2) ∧
    fetchN 3 2 1000 = min (max (perModelLimit 3 2) 3) 1000 ∧
    overallLimit 3 2 = min (perModelLimit 3 2 * 2) 20 :=
  c2_multi_model_limits 3 2 1000 (by decide)

/-- C7 counterexample: with estimated results enabled, a fetched window of 2
ids capped at `max_estimated_results = 2`, `page = 3`, `page_size = 1`, the
slice lies beyond the last fetched result, yet the response carries
`has_next_page = true` (the `"1000+"` branch), refuting the claim that such a
page always has `has_next_page = false`. -/
theorem c7_pagination_counterexample :
    (searchPaginate 3 1 ["a", "b"] true 2).1 = [] ∧
    ["a", "b"].length ≤ (3 - 1) * 1 ∧
    (searchPaginate 3 1 ["a", "b"] true 2).2.hasNextPage ≠ false := by
  decide

/-- C7 (amended): with pagination enabled, `page = 1` returns the first
`page_size` results of the fetched window; a page whose slice lies beyond the
last fetched result yields an empty result list, and then
`has_next_page = false` unless estimated results are enabled and the window
reached `max_estimated_results` (the capped `"1000+"` case), where
`has_next_page = true`. -/
theorem c7_pagination (pageSize : Nat) (ids : List String)
    (enableEst : Bool) (maxEst : Nat) (hps : 1 ≤ pageSize) :
    (searchPaginate 1 pageSize ids enableEst maxEst).1 = ids.take pageSize ∧
    ∀ page, 1 ≤ page → ids.length ≤ (page - 1) * pageSize →
      (searchPaginate page pageSize ids enableEst maxEst).1 = [] ∧
      (searchPaginate page pageSize ids enableEst maxEst).2.hasNextPage
        = (enableEst && decide (maxEst ≤ ids.length)) := by
  constructor
  · simp [searchPaginate, paginateWindow, pySlice]
  · intro page hpage hbeyond
    have hempty : paginateWindow page pageSize ids = [] := by
      unfold paginateWindow pySlice
      have : (ids.take ((page - 1) * pageSize + pageSize)).length
          ≤ (page - 1) * pageSize := by
        have := ids.length_take ((page - 1) * pageSize + pageSize)
        omega
      exact List.drop_eq_nil_of_le this
    refine ⟨by simpa [searchPaginate] using hempty, ?_⟩
    simp only [searchPaginate, hempty]
    unfold paginationInfoOf
    rcases enableEst with _ | _
    · -- estimation disabled: has_next_page ⇔ 0 = page_size, false since 1 ≤ page_size
      simp
      omega
    · by_cases hcap : maxEst ≤ ids.length
      · simp [hcap]
      · -- uncapped estimate branch: page * page_size < count is impossible
        have hlt : ¬ page * pageSize < ids.length := by
          have hsub : (page - 1) + 1 = page := by omega
          have heq : (page - 1) * pageSize + pageSize = page * pageSize := by
            calc (page - 1) * pageSize + pageSize
                = ((page - 1) + 1) * pageSize := by ring
              _ = page * pageSize := by rw [hsub]
          omega
        simp [hcap, hlt]

/-- Witness for `c7_pagination`: window of 2 ids, `page_size = 1`, page 3 is
beyond the window and (uncapped, `max_estimated_results = 1000`) reports
`has_next_page = false`. -/
theorem c7_pagination_witness :
    ((searchPaginate 1 1 ["a", "b"] true 1000).1 = ["a", "b"].take 1 ∧
      ∀ page, 1 ≤ page → ["a", "b"].length ≤ (page - 1) * 1 →
        (searchPaginate page 1 ["a", "b"] true 1000).1 = [] ∧
        (searchPaginate page 1 ["a", "b"] true 1000).2.hasNextPage
          = (true && decide (1000 ≤ (["a", "b"] : List String).length))) :=
  c7_pagination 1 ["a", "b"] true 1000 (by decide)

/-- C1: the public-path test uses `startswith` against a list containing
`"/"`, and every HTTP path starts with `"/"`; so `/search` (and every other
path) is treated as public and served without authentication even when
`ENABLE_API_AUTH` is on and no `Authorization` header is present — the
documented 401 rejection is unreachable. -/
theorem c1_auth_bypassed_on_all_paths :
    isPublicPath "/search" = true ∧
    isPublicPath "/search/multi" = true ∧
    isPublicPath "/history" = true ∧
    isPublicPath "/models/active" = true ∧
    (authRateLimitMiddleware true (fun _ => "") [] 0 0 "/search" none []).1
      = .forwarded false := by
  decide

theorem incrementTokenUsage_cons_of_ne (x : UsageRow) (rest : List UsageRow)
    (tid date : Nat) (hx : (x.tokenId == tid && x.date == date) = false) :
    incrementTokenUsage (x :: rest) tid date
      = x :: incrementTokenUsage rest tid date := by
  unfold incrementTokenUsage
  simp only [List.find?, hx]
  by_cases hs : (rest.find? (fun u => u.tokenId == tid && u.date == date)).isSome
  · simp [hs, hx]
    intro h1 h2
    simp [h1, h2] at hx
  · simp [hs, hx]

theorem getTokenUsageToday_increment (usage : List UsageRow) (tid date : Nat) :
    getTokenUsageToday (incrementTokenUsage usage tid date) tid date
      = getTokenUsageToday usage tid date + 1 := by
  induction usage with
  | nil => simp [incrementTokenUsage, getTokenUsageToday, List.find?]
  | cons x rest ih =>
    by_cases hx : (x.tokenId == tid && x.date == date) = true
    · have hfind :
          ((x :: rest).find? (fun u => u.tokenId == tid && u.date == date))
            = some x := by
        simp [List.find?, hx]
      unfold incrementTokenUsage
      rw [hfind]
      simp only [Option.isSome_some, if_true]
      unfold getTokenUsageToday
      simp [List.find?, hx, hfind]
    · have hx' : (x.tokenId == tid && x.date == date) = false := by
        simpa using hx
      rw [incrementTokenUsage_cons_of_ne x rest tid date hx']
      unfold getTokenUsageToday
      simp only [List.find?, hx']
      exact ih

theorem authRateLimitMiddleware_auth_step (sha : List Char → String)
    (tokens : List TokenRow) (now today : Nat) (path auth : String)
    (info : TokenRow) (usage : List UsageRow)
    (hpub : isPublicPath path = false)
    (hbearer : pyStartsWith auth "Bearer " = true)
    (hfind : getApiToken tokens (sha (pyStrip (auth.data.drop 7))) = some info)
    (hexp : tokenExpired info now = false) :
    authRateLimitMiddleware true sha tokens now today path (some auth) usage
      = if info.rateLimitPerDay ≤ getTokenUsageToday usage info.tokenId today
        then (.rejected 429 (some "86400"), usage)
        else (.forwarded true, incrementTokenUsage usage info.tokenId today) := by
  unfold authRateLimitMiddleware
  simp [hpub, hbearer, hfind, hexp]

theorem runAuth_allowed_below_limit (sha : List Char → String) (tokens : List TokenRow)
    (now today : Nat) (path auth : String) (info : TokenRow)
    (hpub : isPublicPath path = false)
    (hbearer : pyStartsWith auth "Bearer " = true)
    (hfind : getApiToken tokens (sha (pyStrip (auth.data.drop 7))) = some info)
    (hexp : tokenExpired info now = false) :
    ∀ (k : Nat) (u : List UsageRow),
      getTokenUsageToday u info.tokenId today + k ≤ info.rateLimitPerDay →
      (runAuthRequests true sha tokens now today path (some auth) k u).1
          = List.replicate k (.forwarded true) ∧
      getTokenUsageToday
          (runAuthRequests true sha tokens now today path (some auth) k u).2
          info.tokenId today
        = getTokenUsageToday u info.tokenId today + k := by
  intro k
  induction k with
  | zero => intro u _; simp [runAuthRequests]
  | succ k ih =>
    intro u hle
    have hnot : ¬ info.rateLimitPerDay ≤ getTokenUsageToday u info.tokenId today := by
      omega
    have hstep := authRateLimitMiddleware_auth_step sha tokens now today path auth
      info u hpub hbearer hfind hexp
    rw [if_neg hnot] at hstep
    have hinc := getTokenUsageToday_increment u info.tokenId today
    have hle' : getTokenUsageToday (incrementTokenUsage u info.tokenId today)
        info.tokenId today + k ≤ info.rateLimitPerDay := by
      rw [hinc]; omega
    have ihu := ih (incrementTokenUsage u info.tokenId today) hle'
    unfold runAuthRequests
    simp only [hstep]
    refine ⟨?_, ?_⟩
    · simp [List.replicate, ihu.1]
    · rw [ihu.2, hinc]; omega

theorem runAuth_until_limit (sha : List Char → String) (tokens : List TokenRow)
    (now today : Nat) (path auth : String) (info : TokenRow)
    (hpub : isPublicPath path = false)
    (hbearer : pyStartsWith auth "Bearer " = true)
    (hfind : getApiToken tokens (sha (pyStrip (auth.data.drop 7))) = some info)
    (hexp : tokenExpired info now = false) :
    ∀ (k : Nat) (u : List UsageRow),
      getTokenUsageToday u info.tokenId today + k = info.rateLimitPerDay →
      (runAuthRequests true sha tokens now today path (some auth) (k + 1) u).1
        = List.replicate k (.forwarded true) ++ [.rejected 429 (some "86400")] ∧
      getTokenUsageToday
          (runAuthRequests true sha tokens now today path (some auth) (k + 1) u).2
          info.tokenId today
        = info.rateLimitPerDay := by
  intro k
  induction k with
  | zero =>
    intro u hinv
    have hge : info.rateLimitPerDay ≤ getTokenUsageToday u info.tokenId today := by
      omega
    have hstep := authRateLimitMiddleware_auth_step sha tokens now today path auth
      info u hpub hbearer hfind hexp
    rw [if_pos hge] at hstep
    unfold runAuthRequests
    simp [hstep, runAuthRequests]
    omega
  | succ k ih =>
    intro u hinv
    have hnot : ¬ info.rateLimitPerDay ≤ getTokenUsageToday u info.tokenId today := by
      omega
    have hstep := authRateLimitMiddleware_auth_step sha tokens now today path auth
      info u hpub hbearer hfind hexp
    rw [if_neg hnot] at hstep
    have hinc := getTokenUsageToday_increment u info.tokenId today
    have hinv' : getTokenUsageToday (incrementTokenUsage u info.tokenId today)
        info.tokenId today + k = info.rateLimitPerDay := by
      rw [hinc]; omega
    have ihu := ih (incrementTokenUsage u info.tokenId today) hinv'
    show (runAuthRequests true sha tokens now today path (some auth)
        (Nat.succ (k + 1)) u).1 = _ ∧ _
    unfold runAuthRequests
    simp only [hstep]
    exact ⟨by simp [List.replicate, ihu.1], ihu.2⟩

/-- The auth-branch gate itself is correct: for a valid, unexpired token with
daily limit `rate_limit`, on a path the public-path test does not match (so
the branch runs at all — per `c8_rate_limit_never_enforced` no real HTTP path
qualifies), starting from zero usage for `(token, UTC-date)`: the first
`rate_limit` requests of the day are forwarded authenticated, the
`(rate_limit+1)`-th is rejected 429 with `Retry-After: 86400`, and the
`(token_id, date)` usage counter is incremented on each allowed request.
This supports reading the C8 divergence as a slip in the public-path check,
not in the rate-limit logic. -/
theorem rateLimitBranch_would_enforce (sha : List Char → String) (tokens : List TokenRow)
    (now today : Nat) (path auth : String) (info : TokenRow)
    (u0 : List UsageRow)
    (hpub : isPublicPath path = false)
    (hbearer : pyStartsWith auth "Bearer " = true)
    (hfind : getApiToken tokens (sha (pyStrip (auth.data.drop 7))) = some info)
    (hexp : tokenExpired info now = false)
    (hzero : getTokenUsageToday u0 info.tokenId today = 0) :
    (runAuthRequests true sha tokens now today path (some auth)
        (info.rateLimitPerDay + 1) u0).1
      = List.replicate info.rateLimitPerDay (.forwarded true)
        ++ [.rejected 429 (some "86400")] ∧
    (∀ k, k ≤ info.rateLimitPerDay →
      getTokenUsageToday
          (runAuthRequests true sha tokens now today path (some auth) k u0).2
          info.tokenId today
        = k) := by
  constructor
  · exact (runAuth_until_limit sha tokens now today path auth info hpub hbearer
      hfind hexp info.rateLimitPerDay u0 (by omega)).1
  · intro k hk
    have := (runAuth_allowed_below_limit sha tokens now today path auth info hpub hbearer
      hfind hexp k u0 (by omega)).2
    omega

/-- Instance of `rateLimitBranch_would_enforce`: one token with hash `"H"`
(the hash function is the constant `"H"`), daily limit 2, empty usage table,
and the non-HTTP path `"x"` (no real request path avoids the public-path
match): requests 1 and 2 are forwarded, request 3 is rejected 429. -/
theorem rateLimitBranch_would_enforce_instance :
    (runAuthRequests true (fun _ => "H")
        [⟨"H", 1, 2, none, true, true⟩] 0 0 "x" (some "Bearer tok") (2 + 1) []).1
      = List.replicate 2 (.forwarded true) ++ [.rejected 429 (some "86400")] ∧
    (∀ k, k ≤ 2 →
      getTokenUsageToday
          (runAuthRequests true (fun _ => "H")
            [⟨"H", 1, 2, none, true, true⟩] 0 0 "x" (some "Bearer tok") k []).2
          1 0
        = k) :=
  rateLimitBranch_would_enforce (fun _ => "H") [⟨"H", 1, 2, none, true, true⟩] 0 0 "x"
    "Bearer tok" ⟨"H", 1, 2, none, true, true⟩ [] (by decide) (by decide)
    (by decide) (by decide) (by decide)

/-- C8: the daily rate limit is never enforced on real requests.  With
`ENABLE_API_AUTH` on and a valid active token whose `(token, date)` usage
counter already equals its daily limit of 2, a `GET /search` request carrying
the token is still forwarded unauthenticated and the usage table is left
untouched — where the claim requires a 429 with `Retry-After` — and a run of
3 = limit + 1 such requests from zero usage is forwarded all 3 times with the
counter never written.  The `"/"` entry of `public_paths` matches every HTTP
path under `startswith`, so the middleware's 429 branch is dead code for real
paths: the same slip as C1. -/
theorem c8_rate_limit_never_enforced :
    (authRateLimitMiddleware true (fun _ => "H") [⟨"H", 1, 2, none, true, true⟩]
        0 0 "/search" (some "Bearer tok") [⟨1, 0, 2⟩]).1 = .forwarded false ∧
    (authRateLimitMiddleware true (fun _ => "H") [⟨"H", 1, 2, none, true, true⟩]
        0 0 "/search" (some "Bearer tok") [⟨1, 0, 2⟩]).2 = [⟨1, 0, 2⟩] ∧
    (runAuthRequests true (fun _ => "H") [⟨"H", 1, 2, none, true, true⟩]
        0 0 "/search" (some "Bearer tok") 3 []).1
      = List.replicate 3 (.forwarded false) ∧
    (runAuthRequests true (fun _ => "H") [⟨"H", 1, 2, none, true, true⟩]
        0 0 "/search" (some "Bearer tok") 3 []).2 = [] := by
  decide

theorem saveSearchVote_filter_self (rows : List VoteRow) (c : VoteCall)
    (now : Nat) (hvalid : c.voteType = "like" ∨ c.voteType = "dislike") :
    (saveSearchVote rows c now).filter
        (voteMatches c.guestUserId c.query c.modelId (normResultId c.resultId))
      = [⟨c.guestUserId, c.query, c.modelId, normResultId c.resultId,
          c.voteType, now⟩] := by
  unfold saveSearchVote
  rw [if_neg (by tauto)]
  rw [List.filter_append, List.filter_filter]
  have h1 : rows.filter (fun a =>
      voteMatches c.guestUserId c.query c.modelId (normResultId c.resultId) a
      && ! voteMatches c.guestUserId c.query c.modelId (normResultId c.resultId)
            a) = [] := by
    simp
  rw [h1]
  simp [voteMatches]

theorem saveSearchVote_filter_other (rows : List VoteRow) (c : VoteCall)
    (now : Nat) (g q : String) (m : Option Int) (r : Option String)
    (hkey : voteKey g q m r c = false) :
    (saveSearchVote rows c now).filter (voteMatches g q m r)
      = rows.filter (voteMatches g q m r) := by
  unfold saveSearchVote
  by_cases hvalid : c.voteType ≠ "like" ∧ c.voteType ≠ "dislike"
  · rw [if_pos hvalid]
  · rw [if_neg hvalid]
    rw [List.filter_append, List.filter_filter]
    have h2 : (voteMatches g q m r
        ⟨c.guestUserId, c.query, c.modelId, normResultId c.resultId,
         c.voteType, now⟩) = false := by
      by_contra h
      simp only [Bool.not_eq_false, voteMatches] at h
      simp only [voteKey] at hkey
      simp only [Bool.and_eq_true, beq_iff_eq] at h
      obtain ⟨⟨⟨e1, e2⟩, e3⟩, e4⟩ := h
      simp [e1, e2, e3, e4] at hkey
    have h3 : rows.filter (fun a => voteMatches g q m r a
        && ! voteMatches c.guestUserId c.query c.modelId
              (normResultId c.resultId) a)
        = rows.filter (voteMatches g q m r) := by
      apply List.filter_congr
      intro a _
      by_cases ha : voteMatches g q m r a = true
      · have hac : voteMatches c.guestUserId c.query c.modelId
            (normResultId c.resultId) a = false := by
          by_contra hc
          simp only [Bool.not_eq_false] at hc
          simp only [voteMatches, Bool.and_eq_true, beq_iff_eq] at ha hc
          obtain ⟨⟨⟨a1, a2⟩, a3⟩, a4⟩ := ha
          obtain ⟨⟨⟨b1, b2⟩, b3⟩, b4⟩ := hc
          simp [voteKey, ← a1, ← a2, ← a3, ← a4, b1, b2, b3, b4] at hkey
        simp [ha, hac]
      · simp only [Bool.not_eq_true] at ha
        simp [ha]
    rw [h3]
    simp [List.filter, h2]

theorem applyVotes_filter_key (g q : String) (m : Option Int)
    (r : Option String) :
    ∀ (calls : List VoteCall) (rows : List VoteRow),
      (∀ c ∈ calls, c.voteType = "like" ∨ c.voteType = "dislike") →
      ((calls.filter (voteKey g q m r) = [] →
          (applyVotes rows calls).filter (voteMatches g q m r)
            = rows.filter (voteMatches g q m r)) ∧
        (∀ c, (calls.filter (voteKey g q m r)).getLast? = some c →
          ((applyVotes rows calls).filter (voteMatches g q m r)).map
              VoteRow.voteType
            = [c.voteType])) := by
  intro calls
  induction calls with
  | nil =>
    intro rows _
    constructor
    · intro _; simp [applyVotes]
    · intro c hc; simp at hc
  | cons c cs ih =>
    intro rows hv
    have hvc : c.voteType = "like" ∨ c.voteType = "dislike" :=
      hv c (by simp)
    have hvcs : ∀ d ∈ cs, d.voteType = "like" ∨ d.voteType = "dislike" := by
      intro d hd; exact hv d (by simp [hd])
    have ihs := ih (saveSearchVote rows c 0) hvcs
    by_cases hkey : voteKey g q m r c = true
    · -- this call addresses the tuple: it deletes every matching row and
      -- inserts the fresh one
      have e1 : c.guestUserId = g := by
        simp only [voteKey, Bool.and_eq_true, beq_iff_eq] at hkey; tauto
      have e2 : c.query = q := by
        simp only [voteKey, Bool.and_eq_true, beq_iff_eq] at hkey; tauto
      have e3 : c.modelId = m := by
        simp only [voteKey, Bool.and_eq_true, beq_iff_eq] at hkey; tauto
      have e4 : normResultId c.resultId = r := by
        simp only [voteKey, Bool.and_eq_true, beq_iff_eq] at hkey; tauto
      have hself := saveSearchVote_filter_self rows c 0 hvc
      rw [e1, e2, e3, e4] at hself
      have hfcons : (c :: cs).filter (voteKey g q m r)
          = c :: cs.filter (voteKey g q m r) := by
        simp [List.filter, hkey]
      constructor
      · intro habs
        rw [hfcons] at habs
        exact absurd habs (by simp)
      · intro d hd
        rw [hfcons] at hd
        rcases hfk : cs.filter (voteKey g q m r) with _ | ⟨d0, ds⟩
        · rw [hfk] at hd
          simp at hd
          have := ihs.1 hfk
          simp only [applyVotes]
          rw [this, hself, ← hd]
          rfl
        · rw [hfk] at hd
          have hne : d0 :: ds ≠ [] := by simp
          have : (c :: d0 :: ds).getLast? = (d0 :: ds).getLast? := by
            rw [List.getLast?_cons_cons]
          rw [this] at hd
          have := ihs.2 d (by rw [hfk]; exact hd)
          simpa [applyVotes] using this
    · -- the call addresses a different tuple: rows matching (g,q,m,r) are
      -- untouched
      have hkey' : voteKey g q m r c = false := by
        simpa using hkey
      have hother := saveSearchVote_filter_other rows c 0 g q m r hkey'
      have hfcons : (c :: cs).filter (voteKey g q m r)
          = cs.filter (voteKey g q m r) := by
        simp [List.filter, hkey']
      constructor
      · intro hnil
        rw [hfcons] at hnil
        have := ihs.1 hnil
        simp only [applyVotes]
        rw [this, hother]
      · intro d hd
        rw [hfcons] at hd
        have := ihs.2 d hd
        simpa [applyVotes] using this

/-- C9: starting from an empty `search_votes` table, after any sequence of
(valid) `save_search_vote` calls there is at most one row for any
`(guest_user_id, query, model_id|null, result_id|null)` tuple, and when some
call addressed that tuple, the surviving row's `vote_type` is the one of the
most recent such call (delete-then-insert, latest vote wins). -/
theorem c9_vote_unique_latest_wins (calls : List VoteCall)
    (hv : ∀ c ∈ calls, c.voteType = "like" ∨ c.voteType = "dislike")
    (g q : String) (m : Option Int) (r : Option String) :
    ((applyVotes [] calls).filter (voteMatches g q m r)).length ≤ 1 ∧
    (∀ c, (calls.filter (voteKey g q m r)).getLast? = some c →
      ((applyVotes [] calls).filter (voteMatches g q m r)).map
          VoteRow.voteType
        = [c.voteType]) := by
  have h := applyVotes_filter_key g q m r calls [] hv
  constructor
  · rcases hfk : calls.filter (voteKey g q m r) with _ | ⟨d0, ds⟩
    · rw [h.1 hfk]; simp
    · have hne : d0 :: ds ≠ [] := by simp
      obtain ⟨x, hx⟩ := List.getLast?_isSome.2 hne |> Option.isSome_iff_exists.1
      have := h.2 x (by rw [hfk]; exact hx)
      have hlen := congrArg List.length this
      simp only [List.length_map, List.length_singleton] at hlen
      omega
  · exact h.2

/-- Witness for `c9_vote_unique_latest_wins`: like then dislike on the same
`(guest, query, model, result)` tuple leaves exactly one row, a dislike. -/
theorem c9_vote_unique_latest_wins_witness :
    ((applyVotes [] [⟨"guest123", "how", "like", none, none⟩,
        ⟨"guest123", "how", "dislike", none, none⟩]).filter
        (voteMatches "guest123" "how" none none)).length ≤ 1 ∧
    (∀ c, (([⟨"guest123", "how", "like", none, none⟩,
          ⟨"guest123", "how", "dislike", none, none⟩] :
            List VoteCall).filter (voteKey "guest123" "how" none none)).getLast?
          = some c →
      ((applyVotes [] [⟨"guest123", "how", "like", none, none⟩,
          ⟨"guest123", "how", "dislike", none, none⟩]).filter
          (voteMatches "guest123" "how" none none)).map VoteRow.voteType
        = [c.voteType]) :=
  c9_vote_unique_latest_wins
    [⟨"guest123", "how", "like", none, none⟩,
     ⟨"guest123", "how", "dislike", none, none⟩]
    (by decide) "guest123" "how" none none

theorem repeatedSaves_filter (rows0 : List ApprovalRow) (q : String)
    (h0 : ∀ r ∈ rows0, r.query ≠ q) :
    ∀ n, 1 ≤ n →
      (repeatedSaves rows0 q n).filter (fun r => r.query == q)
        = [⟨q, "approved", n, n - 1, none, none, none⟩] := by
  intro n
  induction n with
  | zero => omega
  | succ n ih =>
    intro _
    by_cases hn : 1 ≤ n
    · have hprev := ih hn
      have hmem : (⟨q, "approved", n, n - 1, none, none, none⟩ : ApprovalRow)
          ∈ repeatedSaves rows0 q n := by
        have : (⟨q, "approved", n, n - 1, none, none, none⟩ : ApprovalRow)
            ∈ (repeatedSaves rows0 q n).filter (fun r => r.query == q) := by
          rw [hprev]; simp
        exact List.mem_of_mem_filter this
      have hsome : ((repeatedSaves rows0 q n).find?
          (fun r => r.query == q)).isSome := by
        rw [List.find?_isSome]
        exact ⟨_, hmem, by simp⟩
      show (updateQuerySearchCount (repeatedSaves rows0 q n) q n).filter
          (fun r => r.query == q) = _
      unfold updateQuerySearchCount
      rw [if_pos hsome]
      rw [List.filter_map]
      have hcomp : ((fun r : ApprovalRow => r.query == q) ∘ fun r =>
          if r.query == q then
            { r with searchCount := r.searchCount + 1, lastSearchedAt := n }
          else r) = fun r : ApprovalRow => r.query == q := by
        funext r
        by_cases hr : r.query = q
        · simp [hr]
        · simp [hr]
      rw [hcomp, hprev]
      simp
    · have hn0 : n = 0 := by omega
      subst hn0
      show (updateQuerySearchCount rows0 q 0).filter (fun r => r.query == q) = _
      unfold updateQuerySearchCount
      have hnone : (rows0.find? (fun r => r.query == q)).isSome = false := by
        rw [Bool.eq_false_iff, Ne, List.find?_isSome]
        rintro ⟨x, hx, hxq⟩
        exact h0 x hx (by simpa using hxq)
      rw [if_neg (by simp [hnone])]
      rw [List.filter_append]
      have h1 : rows0.filter (fun r => r.query == q) = [] := by
        rw [List.filter_eq_nil_iff]
        intro a ha
        simpa using h0 a ha
      rw [h1]
      simp

/-- C10: for a query `q` with no `query_approvals` row yet, the first saved
search inserts `(q, 'approved', 1)`; after `n` saved searches the unique row
for `q` still has status `'approved'` and `search_count = n`, and it appears
in the public approved-queries listing (when enabled and the limit is not the
binding constraint) exactly when `n` has reached the configured minimum
count. -/
theorem c10_unreviewed_query_approved (rows0 : List ApprovalRow) (q : String)
    (h0 : ∀ r ∈ rows0, r.query ≠ q) (n : Nat) (hn : 1 ≤ n) :
    (repeatedSaves rows0 q n).filter (fun r => r.query == q)
      = [⟨q, "approved", n, n - 1, none, none, none⟩] ∧
    (∀ minCount limit, (repeatedSaves rows0 q n).length ≤ limit →
      ((⟨q, "approved", n, n - 1, none, none, none⟩ : ApprovalRow)
          ∈ getApprovedQueriesListing (repeatedSaves rows0 q n) true limit
              minCount
        ↔ minCount ≤ n)) := by
  have hfilter := repeatedSaves_filter rows0 q h0 n hn
  refine ⟨hfilter, ?_⟩
  intro minCount limit hlimit
  set row : ApprovalRow := ⟨q, "approved", n, n - 1, none, none, none⟩ with hrow
  have hmem : row ∈ repeatedSaves rows0 q n := by
    have : row ∈ (repeatedSaves rows0 q n).filter (fun r => r.query == q) := by
      rw [hfilter]; simp
    exact List.mem_of_mem_filter this
  unfold getApprovedQueriesListing getQueryApprovals
  rw [if_pos rfl]
  have hlen : ((repeatedSaves rows0 q n).filter
      (queryApprovalsFilter minCount (some "approved"))).length ≤ limit := by
    calc ((repeatedSaves rows0 q n).filter
          (queryApprovalsFilter minCount (some "approved"))).length
        ≤ (repeatedSaves rows0 q n).length := List.length_filter_le _ _
      _ ≤ limit := hlimit
  rw [List.take_of_length_le (by rw [List.length_mergeSort]; exact hlen)]
  rw [(List.mergeSort_perm _ approvalOrder).mem_iff]
  constructor
  · intro hin
    have := List.of_mem_filter hin
    simp only [queryApprovalsFilter, hrow, Bool.and_eq_true, decide_eq_true_eq]
      at this
    exact this.1
  · intro hmin
    apply List.mem_filter_of_mem hmem
    simp [queryApprovalsFilter, hrow, hmin]

/-- Witness for `c10_unreviewed_query_approved`: from an empty table, two
saves of `"q1"` give one approved row with count 2, listed for
`min_count = 2` with `limit = 10`. -/
theorem c10_unreviewed_query_approved_witness :
    (repeatedSaves [] "q1" 2).filter (fun r => r.query == "q1")
      = [⟨"q1", "approved", 2, 1, none, none, none⟩] ∧
    (∀ minCount limit, (repeatedSaves [] "q1" 2).length ≤ limit →
      ((⟨"q1", "approved", 2, 1, none, none, none⟩ : ApprovalRow)
          ∈ getApprovedQueriesListing (repeatedSaves [] "q1" 2) true limit
              minCount
        ↔ minCount ≤ 2)) :=
  c10_unreviewed_query_approved [] "q1" (by simp) 2 (by decide)

theorem segStep_eq_claim (maxLength contextLength : Nat) (h : 1 ≤ maxLength) :
    segStep maxLength contextLength = max 1 (maxLength - contextLength) := by
  unfold segStep
  by_cases hc : 0 < contextLength
  · rw [if_pos hc]
  · rw [if_neg hc]
    omega

theorem segLoop_spec (p : List Char) (maxLength step : Nat)
    (hstep : 1 ≤ step) (hsm : step ≤ maxLength) :
    ∀ (fuel start : Nat), p.length ≤ fuel + start → start < p.length →
      0 < (segLoop p maxLength step fuel start).length ∧
      ∀ i (hi : i < (segLoop p maxLength step fuel start).length),
        (segLoop p maxLength step fuel start).get ⟨i, hi⟩
          = ⟨pySlice p (start + i * step)
                (min (start + i * step + maxLength) p.length),
              start + i * step,
              min (start + i * step + maxLength) p.length⟩ ∧
        (i + 1 < (segLoop p maxLength step fuel start).length
          ↔ min (start + i * step + maxLength) p.length < p.length) := by
  intro fuel
  induction fuel with
  | zero => intro start hfuel hstart; omega
  | succ fuel ih =>
    intro start hfuel hstart
    by_cases hend : p.length ≤ min (start + maxLength) p.length
    · -- the end reaches the paragraph: exactly one more chunk
      have hres : segLoop p maxLength step (fuel + 1) start
          = [⟨pySlice p start (min (start + maxLength) p.length), start,
              min (start + maxLength) p.length⟩] := by
        unfold segLoop
        rw [if_pos hstart, if_pos hend]
      rw [hres]
      refine ⟨by simp, ?_⟩
      intro i hi
      have hi0 : i = 0 := by simpa using hi
      subst hi0
      have hmin : min (start + 0 * step + maxLength) p.length
          = min (start + maxLength) p.length := by
        norm_num
      constructor
      · simp [hmin]
      · simp only [List.length_singleton]
        constructor
        · omega
        · intro hlt
          rw [hmin] at hlt
          omega
    · -- end short of the paragraph: the loop advances by `step`
      push_neg at hend
      have he : min (start + maxLength) p.length = start + maxLength := by
        rcases Nat.le_total (start + maxLength) p.length with h | h
        · exact Nat.min_eq_left h
        · exfalso
          rw [Nat.min_eq_right h] at hend
          omega
      rw [he] at hend
      have hnext : start + step < p.length := by
        omega
      have hres : segLoop p maxLength step (fuel + 1) start
          = ⟨pySlice p start (min (start + maxLength) p.length), start,
              min (start + maxLength) p.length⟩ ::
            segLoop p maxLength step fuel (start + step) := by
        conv_lhs => rw [segLoop]
        rw [if_pos hstart, if_neg (by rw [he]; omega)]
      have ihr := ih (start + step) (by omega) hnext
      rw [hres]
      refine ⟨by simp, ?_⟩
      intro i hi
      match i with
      | 0 =>
        constructor
        · simp
        · simp only [List.length_cons]
          constructor
          · intro _
            norm_num
            omega
          · intro _
            omega
      | j + 1 =>
        simp only [List.length_cons, Nat.add_lt_add_iff_right] at hi
        have hj := ihr.2 j hi
        have harith : start + step + j * step = start + (j + 1) * step := by
          ring
        constructor
        · show (segLoop p maxLength step fuel (start + step)).get ⟨j, hi⟩ = _
          rw [hj.1, harith]
        · show j + 1 + 1 < (segLoop p maxLength step fuel (start + step)).length + 1 ↔ _
          rw [Nat.add_lt_add_iff_right]
          rw [hj.2, harith]

/-- C4: `segment_paragraph` boundary and stepping behaviour: (i) a paragraph
not longer than `max_length` yields exactly the single segment `[0, len)`;
(ii) in particular a paragraph of exactly `max_length` characters does;
(iii) a paragraph of `max_length + 1` characters yields exactly two segments
when `context_length > 0`; (iv) otherwise segments start at multiples of
`step = max(1, max_length − context_length)` with end
`min(start + max_length, len)`, and a segment is followed by another one
exactly until its end reaches `len`.  (`max_length ≥ 1` as a chunk size.) -/
theorem c4_segment_paragraph (p : List Char) (maxLength contextLength : Nat) :
    (p.length ≤ maxLength →
      segmentParagraph p maxLength contextLength = [⟨p, 0, p.length⟩]) ∧
    (p.length = maxLength →
      segmentParagraph p maxLength contextLength = [⟨p, 0, p.length⟩]) ∧
    (p.length = maxLength + 1 → 0 < contextLength → 1 ≤ maxLength →
      (segmentParagraph p maxLength contextLength).length = 2) ∧
    (maxLength < p.length → 1 ≤ maxLength →
      0 < (segmentParagraph p maxLength contextLength).length ∧
      ∀ i (hi : i < (segmentParagraph p maxLength contextLength).length),
        (segmentParagraph p maxLength contextLength).get ⟨i, hi⟩
          = ⟨pySlice p (i * max 1 (maxLength - contextLength))
                (min (i * max 1 (maxLength - contextLength) + maxLength)
                  p.length),
              i * max 1 (maxLength - contextLength),
              min (i * max 1 (maxLength - contextLength) + maxLength)
                p.length⟩ ∧
        (i + 1 < (segmentParagraph p maxLength contextLength).length
          ↔ min (i * max 1 (maxLength - contextLength) + maxLength) p.length
              < p.length)) := by
  have hshort : p.length ≤ maxLength →
      segmentParagraph p maxLength contextLength = [⟨p, 0, p.length⟩] := by
    intro h
    unfold segmentParagraph
    rw [if_pos h]
  have hloop : maxLength < p.length → 1 ≤ maxLength →
      0 < (segmentParagraph p maxLength contextLength).length ∧
      ∀ i (hi : i < (segmentParagraph p maxLength contextLength).length),
        (segmentParagraph p maxLength contextLength).get ⟨i, hi⟩
          = ⟨pySlice p (i * max 1 (maxLength - contextLength))
                (min (i * max 1 (maxLength - contextLength) + maxLength)
                  p.length),
              i * max 1 (maxLength - contextLength),
              min (i * max 1 (maxLength - contextLength) + maxLength)
                p.length⟩ ∧
        (i + 1 < (segmentParagraph p maxLength contextLength).length
          ↔ min (i * max 1 (maxLength - contextLength) + maxLength) p.length
              < p.length) := by
    intro hlong hpos
    have hstepeq := segStep_eq_claim maxLength contextLength hpos
    have hstep1 : 1 ≤ segStep maxLength contextLength := by
      rw [hstepeq]; omega
    have hstepm : segStep maxLength contextLength ≤ maxLength := by
      rw [hstepeq]; omega
    have hseg : segmentParagraph p maxLength contextLength
        = segLoop p maxLength (segStep maxLength contextLength) p.length 0 := by
      unfold segmentParagraph
      rw [if_neg (by omega)]
    have hspec := segLoop_spec p maxLength (segStep maxLength contextLength)
      hstep1 hstepm p.length 0 (by omega) (by omega)
    rw [hseg]
    refine ⟨hspec.1, ?_⟩
    intro i hi
    have h := hspec.2 i hi
    rw [← hstepeq]
    simpa using h
  refine ⟨hshort, fun h => hshort (by omega), ?_, hloop⟩
  intro hlen hctx hpos
  have h4 := hloop (by omega) hpos
  rcases h4 with ⟨hpos0, hall⟩
  set L := (segmentParagraph p maxLength contextLength).length with hL
  set step := max 1 (maxLength - contextLength) with hstepdef
  have hstep1 : 1 ≤ step := by omega
  have hstepm : step ≤ maxLength := by omega
  -- chunk 0 ends at maxLength < len, so there is a second chunk
  have h0 := hall 0 (by omega)
  have hiff0 : 0 + 1 < L ↔ min (0 * step + maxLength) p.length < p.length :=
    h0.2
  have hmin0 : min (0 * step + maxLength) p.length = maxLength := by
    simp only [Nat.zero_mul, Nat.zero_add]
    omega
  have hL2 : 2 ≤ L := by
    have : 0 + 1 < L := hiff0.2 (by omega)
    omega
  -- chunk 1 ends at len, so there is no third chunk
  have h1 := hall 1 (by omega)
  have hmin1 : min (1 * step + maxLength) p.length = p.length := by
    have : p.length ≤ 1 * step + maxLength := by
      simp only [Nat.one_mul]
      omega
    omega
  have hiff1 : 1 + 1 < L ↔ min (1 * step + maxLength) p.length < p.length :=
    h1.2
  have : ¬ (1 + 1 < L) := by
    rw [hiff1, hmin1]
    omega
  omega

/-- Witness for `c4_segment_paragraph`: `"ab"` with `max_length = 2` is a
single segment, `"abc"` with `max_length = 2`, `context_length = 1` gives
exactly two segments, the first starting at 0. -/
theorem c4_segment_paragraph_witness :
    segmentParagraph ['a', 'b'] 2 1 = [⟨['a', 'b'], 0, 2⟩] ∧
    (segmentParagraph ['a', 'b', 'c'] 2 1).length = 2 ∧
    0 < (segmentParagraph ['a', 'b', 'c'] 2 1).length :=
  ⟨(c4_segment_paragraph ['a', 'b'] 2 1).1 (by decide),
   (c4_segment_paragraph ['a', 'b', 'c'] 2 1).2.2.1 (by decide) (by decide)
     (by decide),
   ((c4_segment_paragraph ['a', 'b', 'c'] 2 1).2.2.2 (by decide)
     (by decide)).1⟩

/-- Every chunk of `segment_paragraph` satisfies
`len(text) = end - start ≤ len(paragraph)`. -/
theorem segmentParagraph_chunk_length (p : List Char)
    (maxLength contextLength : Nat) :
    ∀ ch ∈ segmentParagraph p maxLength contextLength,
      ch.start ≤ ch.stop ∧ ch.stop ≤ p.length ∧
      ch.text.length = ch.stop - ch.start := by
  have hloop : ∀ fuel start, ∀ ch ∈ segLoop p maxLength
      (segStep maxLength contextLength) fuel start,
      ch.start ≤ ch.stop ∧ ch.stop ≤ p.length ∧
      ch.text.length = ch.stop - ch.start := by
    intro fuel
    induction fuel with
    | zero => intro start ch hch; simp [segLoop] at hch
    | succ fuel ih =>
      intro start ch hch
      rw [segLoop] at hch
      by_cases hstart : start < p.length
      · rw [if_pos hstart] at hch
        rcases List.mem_cons.1 hch with hhd | htl
        · subst hhd
          dsimp only
          refine ⟨by omega, by omega, ?_⟩
          simp only [pySlice, List.length_drop, List.length_take]
          omega
        · by_cases hdone : p.length ≤ min (start + maxLength) p.length
          · rw [if_pos hdone] at htl
            simp at htl
          · rw [if_neg hdone] at htl
            exact ih _ ch htl
      · rw [if_neg hstart] at hch
        simp at hch
  intro ch hch
  unfold segmentParagraph at hch
  by_cases hshort : p.length ≤ maxLength
  · rw [if_pos hshort] at hch
    simp at hch
    subst hch
    simp
  · rw [if_neg hshort] at hch
    exact hloop _ _ ch hch

/-- C5: every segment `build_segments` produces for a book-page record that
is not the page-level document has `segment_length` equal to the length of
the stored document text and `segment_end − segment_start = segment_length`
(with `segment_start ≤ segment_end`), for any upstream page text and
paragraph list and any chunking parameters. -/
theorem c5_segment_metadata (record : BookPageRecord) (text : List Char)
    (paragraphs : List ParagraphPayload) (maxLength contextLength : Nat)
    (titleWeight : Rat) (includePageLevel : Bool) (uuidHex hashHex : String)
    (seg : Segment)
    (hmem : seg ∈ buildSegments record text paragraphs maxLength contextLength
      titleWeight includePageLevel uuidHex hashHex)
    (hnotpage : seg.metadata.pageLevel = false) :
    seg.metadata.segmentLength = seg.text.length ∧
    seg.metadata.segmentStart ≤ seg.metadata.segmentEnd ∧
    seg.metadata.segmentEnd - seg.metadata.segmentStart
      = seg.metadata.segmentLength := by
  unfold buildSegments at hmem
  have hpara : ∀ s ∈ (paragraphs.enum.map (fun pi =>
      ((segmentParagraph pi.2.text maxLength contextLength).enum.map
        (fun si => mkParagraphSegment record uuidHex titleWeight pi.1 pi.2
          si.1 si.2)))).flatten,
      s.metadata.segmentLength = s.text.length ∧
      s.metadata.segmentStart ≤ s.metadata.segmentEnd ∧
      s.metadata.segmentEnd - s.metadata.segmentStart
        = s.metadata.segmentLength := by
    intro s hs
    rw [List.mem_flatten] at hs
    obtain ⟨l, hl, hsl⟩ := hs
    rw [List.mem_map] at hl
    obtain ⟨pi, hpi, rfl⟩ := hl
    rw [List.mem_map] at hsl
    obtain ⟨si, hsi, rfl⟩ := hsl
    have hch : si.2 ∈ segmentParagraph pi.2.text maxLength contextLength := by
      have := List.mem_enum hsi
      rcases this with ⟨hlt, hx⟩
      rw [hx]
      exact List.getElem_mem hlt
    have hlen := segmentParagraph_chunk_length pi.2.text maxLength
      contextLength si.2 hch
    refine ⟨rfl, ?_, ?_⟩
    · simpa [mkParagraphSegment] using hlen.1
    · show si.2.stop - si.2.start = si.2.text.length
      omega
  by_cases hpl : includePageLevel ∧ text ≠ []
  · rw [if_pos hpl] at hmem
    rcases List.mem_append.1 hmem with hm | hm
    · -- not the page-level document
      by_cases hfb : ((paragraphs.enum.map (fun pi =>
          ((segmentParagraph pi.2.text maxLength contextLength).enum.map
            (fun si => mkParagraphSegment record uuidHex titleWeight pi.1 pi.2
              si.1 si.2)))).flatten = [] ∧ text ≠ [])
      · rw [if_pos hfb] at hm
        rcases List.mem_append.1 hm with hm2 | hm2
        · exact hpara seg hm2
        · simp only [List.mem_singleton] at hm2
          subst hm2
          exact ⟨rfl, by simp [mkFallbackSegment], by simp [mkFallbackSegment]⟩
      · rw [if_neg hfb] at hm
        exact hpara seg hm
    · simp only [List.mem_singleton] at hm
      subst hm
      simp [mkPageLevelSegment] at hnotpage
  · rw [if_neg hpl] at hmem
    by_cases hfb : ((paragraphs.enum.map (fun pi =>
        ((segmentParagraph pi.2.text maxLength contextLength).enum.map
          (fun si => mkParagraphSegment record uuidHex titleWeight pi.1 pi.2
            si.1 si.2)))).flatten = [] ∧ text ≠ [])
    · rw [if_pos hfb] at hmem
      rcases List.mem_append.1 hmem with hm2 | hm2
      · exact hpara seg hm2
      · simp only [List.mem_singleton] at hm2
        subst hm2
        exact ⟨rfl, by simp [mkFallbackSegment], by simp [mkFallbackSegment]⟩
    · rw [if_neg hfb] at hmem
      exact hpara seg hmem

/-- Witness for `c5_segment_metadata`: a one-paragraph record chunked with
`max_length = 2`, `context_length = 1`; the first produced segment satisfies
the metadata invariant. -/
theorem c5_segment_metadata_witness :
    (mkParagraphSegment ⟨1, 1, "B", 0, "S", 2, "L", ""⟩ "r" 1 0
        ⟨['a', 'b', 'c'], 1, [0], false⟩ 0 ⟨['a', 'b'], 0, 2⟩)
        ∈ buildSegments ⟨1, 1, "B", 0, "S", 2, "L", ""⟩ ['x']
          [⟨['a', 'b', 'c'], 1, [0], false⟩] 2 1 1 false "r" "h" ∧
    (mkParagraphSegment ⟨1, 1, "B", 0, "S", 2, "L", ""⟩ "r" 1 0
        ⟨['a', 'b', 'c'], 1, [0], false⟩ 0
        ⟨['a', 'b'], 0, 2⟩).metadata.segmentLength
      = (mkParagraphSegment ⟨1, 1, "B", 0, "S", 2, "L", ""⟩ "r" 1 0
          ⟨['a', 'b', 'c'], 1, [0], false⟩ 0 ⟨['a', 'b'], 0, 2⟩).text.length :=
  ⟨by decide,
   (c5_segment_metadata ⟨1, 1, "B", 0, "S", 2, "L", ""⟩ ['x']
      [⟨['a', 'b', 'c'], 1, [0], false⟩] 2 1 1 false "r" "h" _
      (by decide) (by decide)).1⟩

theorem lookupResults_mem (perModel : List (Nat × List MItem)) (m : Nat)
    (items : List MItem) (h : lookupResults perModel m = some items) :
    ∃ e ∈ perModel, e.2 = items := by
  unfold lookupResults at h
  rcases hf : perModel.find? (fun e => e.1 == m) with _ | e
  · rw [hf] at h; simp at h
  · rw [hf] at h
    simp at h
    exact ⟨e, List.mem_of_find?_eq_some hf, h⟩

theorem rrInner_eq_spec (perModel : List (Nat × List MItem))
    (hid : ∀ e ∈ perModel, ∀ it ∈ e.2, it.id ≠ "")
    (overall depth : Nat) :
    ∀ (models : List Nat) (st : List String × List MItem),
      rrInner perModel overall depth models st
        = rrInnerSpec perModel overall depth models st := by
  intro models
  induction models with
  | nil => intro st; rfl
  | cons m rest ih =>
    intro st
    unfold rrInner rrInnerSpec
    by_cases hbreak : overall ≤ st.2.length
    · rw [if_pos hbreak, if_pos hbreak]
    · rw [if_neg hbreak, if_neg hbreak]
      rcases hitem : ((lookupResults perModel m).getD [])[depth]? with _ | item
    /- no depth-th hit for this model -/
      · exact ih st
      · have hne : item.id ≠ "" := by
          rcases hl : lookupResults perModel m with _ | items
          · rw [hl] at hitem; simp at hitem
          · rw [hl] at hitem
            simp only [Option.getD_some] at hitem
            obtain ⟨e, he, rfl⟩ := lookupResults_mem perModel m items hl
            exact hid e he item (List.getElem?_mem hitem)
        dsimp only
        by_cases hseen : item.id ∈ st.1
        · rw [if_neg (by tauto), if_neg (by tauto)]
          exact ih st
        · rw [if_pos ⟨hne, hseen⟩, if_pos hseen]
          exact ih _

theorem rrOuter_eq_spec (perModel : List (Nat × List MItem))
    (hid : ∀ e ∈ perModel, ∀ it ∈ e.2, it.id ≠ "")
    (models : List Nat) (overall : Nat) :
    ∀ (fuel depth : Nat) (st : List String × List MItem),
      rrOuter perModel models overall fuel depth st
        = rrOuterSpec perModel models overall fuel depth st := by
  intro fuel
  induction fuel with
  | zero => intro depth st; rfl
  | succ fuel ih =>
    intro depth st
    unfold rrOuter rrOuterSpec
    rw [rrInner_eq_spec perModel hid overall depth models st]
    by_cases hbreak :
        overall ≤ (rrInnerSpec perModel overall depth models st).2.length
    · rw [if_pos hbreak, if_pos hbreak]
    · rw [if_neg hbreak, if_neg hbreak]
      exact ih _ _

/-- The dedup invariant threaded through the inner loop: emitted ids are
distinct and recorded in `seen_doc_ids`. -/
theorem rrInner_nodup (perModel : List (Nat × List MItem))
    (overall depth : Nat) :
    ∀ (models : List Nat) (st : List String × List MItem),
      (st.2.map MItem.id).Nodup → (∀ it ∈ st.2, it.id ∈ st.1) →
      ((rrInner perModel overall depth models st).2.map MItem.id).Nodup ∧
      (∀ it ∈ (rrInner perModel overall depth models st).2,
        it.id ∈ (rrInner perModel overall depth models st).1) := by
  intro models
  induction models with
  | nil => intro st h1 h2; exact ⟨h1, h2⟩
  | cons m rest ih =>
    intro st h1 h2
    unfold rrInner
    by_cases hbreak : overall ≤ st.2.length
    · rw [if_pos hbreak]; exact ⟨h1, h2⟩
    · rw [if_neg hbreak]
      rcases hitem : ((lookupResults perModel m).getD [])[depth]? with _ | item
      · exact ih st h1 h2
      · dsimp only
        by_cases htake : item.id ≠ "" ∧ item.id ∉ st.1
        · rw [if_pos htake]
          apply ih
          · rw [List.map_append]
            apply List.Nodup.append h1 (by simp)
            intro a ha hb
            simp only [List.map_cons, List.map_nil, List.mem_singleton] at hb
            subst hb
            rcases List.mem_map.1 ha with ⟨it, hit, hid⟩
            exact htake.2 (hid ▸ h2 it hit)
          · intro it hit
            rcases List.mem_append.1 hit with h | h
            · exact List.mem_cons_of_mem _ (h2 it h)
            · simp only [List.mem_singleton] at h
              subst h
              exact List.mem_cons_self _ _
        · rw [if_neg htake]
          exact ih st h1 h2

theorem rrOuter_nodup (perModel : List (Nat × List MItem))
    (models : List Nat) (overall : Nat) :
    ∀ (fuel depth : Nat) (st : List String × List MItem),
      (st.2.map MItem.id).Nodup → (∀ it ∈ st.2, it.id ∈ st.1) →
      ((rrOuter perModel models overall fuel depth st).2.map MItem.id).Nodup ∧
      (∀ it ∈ (rrOuter perModel models overall fuel depth st).2,
        it.id ∈ (rrOuter perModel models overall fuel depth st).1) := by
  intro fuel
  induction fuel with
  | zero => intro depth st h1 h2; exact ⟨h1, h2⟩
  | succ fuel ih =>
    intro depth st h1 h2
    have hinner := rrInner_nodup perModel overall depth models st h1 h2
    unfold rrOuter
    by_cases hbreak :
        overall ≤ (rrInner perModel overall depth models st).2.length
    · rw [if_pos hbreak]; exact hinner
    · rw [if_neg hbreak]
      exact ih _ _ hinner.1 hinner.2

/-- C3: given per-model result lists with well-formed vector-store ids
(non-empty, no duplicate within one model's list): the merged output never
contains two results with the same `document_id`; with one successful model
it is that model's first `per_model_limit` results; with several it equals
the claim's round-robin-by-depth merge (which, being a function of the lists,
always yields the same output for the same per-model lists). -/
theorem c3_merge_dedup_round_robin (orderedIds : List Nat)
    (perModel : List (Nat × List MItem)) (perLimit overall : Nat)
    (hid : ∀ e ∈ perModel, ∀ it ∈ e.2, it.id ≠ "")
    (hnd : ∀ e ∈ perModel, (e.2.map MItem.id).Nodup) :
    ((combineResults orderedIds perModel perLimit overall).map
        MItem.id).Nodup ∧
    (∀ m, successfulIds orderedIds perModel = [m] →
      combineResults orderedIds perModel perLimit overall
        = ((lookupResults perModel m).getD []).take perLimit) ∧
    (2 ≤ (successfulIds orderedIds perModel).length →
      combineResults orderedIds perModel perLimit overall
        = roundRobinMergeSpec perModel (successfulIds orderedIds perModel)
            overall) := by
  refine ⟨?_, ?_, ?_⟩
  · rcases hsucc : successfulIds orderedIds perModel with _ | ⟨m1, _ | ⟨m2, rest⟩⟩
    · unfold combineResults
      rw [hsucc]
      simp
    · -- one successful model: a take of one model's list
      have hm1 : m1 ∈ successfulIds orderedIds perModel := by
        rw [hsucc]; simp
      have hsome : (lookupResults perModel m1).isSome := by
        have := List.of_mem_filter hm1
        simpa using this
      unfold combineResults
      rw [hsucc]
      dsimp only
      rcases hl : lookupResults perModel m1 with _ | items
      · rw [hl] at hsome; simp at hsome
      · obtain ⟨e, he, rfl⟩ := lookupResults_mem perModel m1 items hl
        simp only [Option.getD_some]
        rw [List.map_take]
        exact (hnd e he).sublist (List.take_sublist _ _)
    · unfold combineResults
      rw [hsucc]
      exact (rrOuter_nodup perModel (m1 :: m2 :: rest) overall
        (maxDepth perModel (m1 :: m2 :: rest)) 0 ([], []) (by simp)
        (by simp)).1
  · intro m hm
    unfold combineResults
    rw [hm]
  · intro h2
    rcases hsucc : successfulIds orderedIds perModel with _ | ⟨m1, _ | ⟨m2, rest⟩⟩
    · rw [hsucc] at h2; simp at h2
    · rw [hsucc] at h2; simp at h2
    · unfold combineResults roundRobinMergeSpec
      rw [hsucc]
      dsimp only
      rw [rrOuter_eq_spec perModel hid]

/-- Witness for `c3_merge_dedup_round_robin`: models 1 and 2 both returned,
model 1's list shares document `d1` with model 2's; the merged output holds
`d1` once. -/
theorem c3_merge_dedup_round_robin_witness :
    ((combineResults [1, 2]
        [(1, [⟨"d1", 1, none⟩, ⟨"d2", 1, none⟩]),
         (2, [⟨"d1", 2, none⟩, ⟨"d3", 2, none⟩])] 10 20).map MItem.id).Nodup ∧
    (∀ m, successfulIds [1, 2]
          [(1, [⟨"d1", 1, none⟩, ⟨"d2", 1, none⟩]),
           (2, [⟨"d1", 2, none⟩, ⟨"d3", 2, none⟩])] = [m] →
      combineResults [1, 2]
          [(1, [⟨"d1", 1, none⟩, ⟨"d2", 1, none⟩]),
           (2, [⟨"d1", 2, none⟩, ⟨"d3", 2, none⟩])] 10 20
        = ((lookupResults
            [(1, [⟨"d1", 1, none⟩, ⟨"d2", 1, none⟩]),
             (2, [⟨"d1", 2, none⟩, ⟨"d3", 2, none⟩])] m).getD []).take 10) ∧
    (2 ≤ (successfulIds [1, 2]
        [(1, [⟨"d1", 1, none⟩, ⟨"d2", 1, none⟩]),
         (2, [⟨"d1", 2, none⟩, ⟨"d3", 2, none⟩])]).length →
      combineResults [1, 2]
          [(1, [⟨"d1", 1, none⟩, ⟨"d2", 1, none⟩]),
           (2, [⟨"d1", 2, none⟩, ⟨"d3", 2, none⟩])] 10 20
        = roundRobinMergeSpec
            [(1, [⟨"d1", 1, none⟩, ⟨"d2", 1, none⟩]),
             (2, [⟨"d1", 2, none⟩, ⟨"d3", 2, none⟩])]
            (successfulIds [1, 2]
              [(1, [⟨"d1", 1, none⟩, ⟨"d2", 1, none⟩]),
               (2, [⟨"d1", 2, none⟩, ⟨"d3", 2, none⟩])]) 20) :=
  c3_merge_dedup_round_robin [1, 2]
    [(1, [⟨"d1", 1, none⟩, ⟨"d2", 1, none⟩]),
     (2, [⟨"d1", 2, none⟩, ⟨"d3", 2, none⟩])] 10 20
    (by decide) (by decide)

theorem containsSeq_eq_true_iff (sub : List Nat) :
    ∀ l, containsSeq sub l = true ↔ sub <:+: l := by
  intro l
  induction l with
  | nil =>
    simp only [containsSeq, List.isEmpty_iff]
    constructor
    · intro h; simp [h]
    · intro h; simpa using h
  | cons c rest ih =>
    simp only [containsSeq, Bool.or_eq_true]
    rw [List.isPrefixOf_iff_prefix, ih, List.infix_cons_iff]

theorem pyReplaceAux_mem (sub rep : List Nat) :
    ∀ (fuel : Nat) (l : List Nat) (c : Nat),
      c ∈ pyReplaceAux sub rep fuel l → c ∈ l ∨ c ∈ rep := by
  intro fuel
  induction fuel with
  | zero => intro l c h; exact Or.inl h
  | succ fuel ih =>
    intro l c h
    match l with
    | [] => simp [pyReplaceAux] at h
    | x :: xs =>
      rw [pyReplaceAux] at h
      by_cases hc : sub ≠ [] ∧ sub <+: x :: xs
      · rw [if_pos hc] at h
        rcases List.mem_append.1 h with h1 | h1
        · exact Or.inr h1
        · rcases ih _ c h1 with h2 | h2
          · exact Or.inl (List.drop_subset _ _ h2)
          · exact Or.inr h2
      · rw [if_neg hc] at h
        rcases List.mem_cons.1 h with h1 | h1
        · exact Or.inl (h1 ▸ List.mem_cons_self x xs)
        · rcases ih xs c h1 with h2 | h2
          · exact Or.inl (List.mem_cons_of_mem x h2)
          · exact Or.inr h2

theorem pyReplaceAux_head_notMem (a : Nat) (s rep : List Nat) :
    ∀ (fuel : Nat) (l : List Nat), a ∉ l →
      pyReplaceAux (a :: s) rep fuel l = l := by
  intro fuel
  induction fuel with
  | zero => intro l _; rfl
  | succ fuel ih =>
    intro l ha
    match l with
    | [] => rfl
    | x :: xs =>
      have hax : a ≠ x := fun h => ha (h ▸ List.mem_cons_self x xs)
      have hpre : ¬ ((a :: s) ≠ [] ∧ a :: s <+: x :: xs) := by
        rintro ⟨-, t, ht⟩
        simp only [List.cons_append, List.cons.injEq] at ht
        exact hax ht.1
      rw [pyReplaceAux, if_neg hpre]
      rw [ih xs (fun h => ha (List.mem_cons_of_mem x h))]

theorem pyReplaceAux_emit (sub rep : List Nat) (hsub : sub ≠ []) (c : Nat)
    (hc : c ∈ rep) :
    ∀ (fuel : Nat) (l : List Nat), l.length ≤ fuel → sub <:+: l →
      c ∈ pyReplaceAux sub rep fuel l := by
  intro fuel
  induction fuel with
  | zero =>
    intro l hl hinf
    have : l = [] := List.length_eq_zero.1 (by omega)
    subst this
    exact absurd (by simpa using hinf) hsub
  | succ fuel ih =>
    intro l hl hinf
    match l with
    | [] => exact absurd (by simpa using hinf) hsub
    | x :: xs =>
      rw [pyReplaceAux]
      by_cases hmatch : sub ≠ [] ∧ sub <+: x :: xs
      · rw [if_pos hmatch]
        exact List.mem_append.2 (Or.inl hc)
      · rw [if_neg hmatch]
        have hnp : ¬ sub <+: x :: xs := by
          intro h
          exact hmatch ⟨hsub, h⟩
        have hinf2 : sub <:+: xs := by
          rcases List.infix_cons_iff.1 hinf with h | h
          · exact absurd h hnp
          · exact h
        simp only [List.length_cons] at hl
        exact List.mem_cons_of_mem x (ih xs (by omega) hinf2)

theorem pyReplaceAux_filter_nonAscii (sub rep : List Nat)
    (hs : ∀ c ∈ sub, c < 128) (hr : ∀ c ∈ rep, c < 128) :
    ∀ (fuel : Nat) (l : List Nat),
      (pyReplaceAux sub rep fuel l).filter (fun c => decide (128 ≤ c))
        = l.filter (fun c => decide (128 ≤ c)) := by
  intro fuel
  induction fuel with
  | zero => intro l; rfl
  | succ fuel ih =>
    intro l
    match l with
    | [] => rfl
    | x :: xs =>
      rw [pyReplaceAux]
      by_cases hmatch : sub ≠ [] ∧ sub <+: x :: xs
      · rw [if_pos hmatch]
        obtain ⟨t, ht⟩ := hmatch.2
        have hdrop : (x :: xs).drop sub.length = t := by
          rw [← ht]
          exact List.drop_left sub t
        rw [hdrop, List.filter_append, ih t]
        have hsubnil : sub.filter (fun c => decide (128 ≤ c)) = [] := by
          rw [List.filter_eq_nil_iff]
          intro a ha
          have := hs a ha
          simp only [decide_eq_true_eq]
          omega
        have hrepnil : rep.filter (fun c => decide (128 ≤ c)) = [] := by
          rw [List.filter_eq_nil_iff]
          intro a ha
          have := hr a ha
          simp only [decide_eq_true_eq]
          omega
        rw [hrepnil, ← ht, List.filter_append, hsubnil]
      · rw [if_neg hmatch]
        rw [List.filter_cons, List.filter_cons, ih xs]

theorem onlyNEscapes_cons_bs {rest : List Nat}
    (h : onlyNEscapes (92 :: rest) = true) :
    ∃ rest2, rest = 110 :: rest2 ∧ onlyNEscapes rest2 = true := by
  match rest with
  | [] => simp [onlyNEscapes] at h
  | c2 :: rest2 =>
    rw [onlyNEscapes, if_pos rfl] at h
    by_cases hc2 : c2 = 110
    · subst hc2
      rw [if_pos rfl] at h
      exact ⟨rest2, rfl, h⟩
    · rw [if_neg hc2] at h
      simp at h

theorem onlyNEscapes_cons_ne {c : Nat} (hc : c ≠ 92) (rest : List Nat) :
    onlyNEscapes (c :: rest) = onlyNEscapes rest := by
  match rest with
  | [] => simp [onlyNEscapes, hc]
  | c2 :: rest2 => rw [onlyNEscapes, if_neg hc]

theorem onlyNEscapes_bs_n (rest : List Nat) :
    onlyNEscapes (92 :: 110 :: rest) = onlyNEscapes rest := by
  rw [onlyNEscapes, if_pos rfl, if_pos rfl]

theorem pyReplaceAux_bsbs_id (rep : List Nat) :
    ∀ (fuel : Nat) (l : List Nat), onlyNEscapes l = true →
      pyReplaceAux [92, 92] rep fuel l = l := by
  intro fuel
  induction fuel with
  | zero => intro l _; rfl
  | succ fuel ih =>
    intro l h
    match l with
    | [] => rfl
    | x :: xs =>
      by_cases hx : x = 92
      · subst hx
        obtain ⟨rest2, hrest, h2⟩ := onlyNEscapes_cons_bs h
        subst hrest
        have hpre :
            ¬ (([92, 92] : List Nat) ≠ [] ∧ [92, 92] <+: 92 :: 110 :: rest2) := by
          rintro ⟨-, t, ht⟩
          simp at ht
        rw [pyReplaceAux, if_neg hpre]
        congr 1
        apply ih (110 :: rest2)
        rw [onlyNEscapes_cons_ne (by omega) rest2]
        exact h2
      · have hpre : ¬ (([92, 92] : List Nat) ≠ [] ∧ [92, 92] <+: x :: xs) := by
          rintro ⟨-, t, ht⟩
          simp only [List.cons_append, List.cons.injEq] at ht
          exact hx ht.1.symm
        rw [pyReplaceAux, if_neg hpre]
        congr 1
        apply ih xs
        rw [← onlyNEscapes_cons_ne hx xs]
        exact h

theorem pyReplaceAux_bsn_no_bs :
    ∀ (fuel : Nat) (l : List Nat), l.length ≤ fuel → onlyNEscapes l = true →
      (92 : Nat) ∉ pyReplaceAux [92, 110] [10] fuel l := by
  intro fuel
  induction fuel with
  | zero =>
    intro l hl _
    have : l = [] := List.length_eq_zero.1 (by omega)
    subst this
    simp [pyReplaceAux]
  | succ fuel ih =>
    intro l hl h
    match l with
    | [] => simp [pyReplaceAux]
    | x :: xs =>
      by_cases hx : x = 92
      · subst hx
        obtain ⟨rest2, hrest, h2⟩ := onlyNEscapes_cons_bs h
        subst hrest
        have hpre : (([92, 110] : List Nat) ≠ [] ∧
            [92, 110] <+: 92 :: 110 :: rest2) :=
          ⟨by simp, ⟨rest2, rfl⟩⟩
        rw [pyReplaceAux, if_pos hpre]
        intro hmem
        rcases List.mem_append.1 hmem with h1 | h1
        · simp at h1
        · have hdrop : ((92 :: 110 :: rest2).drop ([92, 110] : List Nat).length)
              = rest2 := rfl
          rw [hdrop] at h1
          simp only [List.length_cons] at hl
          exact ih rest2 (by omega) h2 h1
      · have hpre : ¬ (([92, 110] : List Nat) ≠ [] ∧ [92, 110] <+: x :: xs) := by
          rintro ⟨-, t, ht⟩
          simp only [List.cons_append, List.cons.injEq] at ht
          exact hx ht.1.symm
        rw [pyReplaceAux, if_neg hpre]
        intro hmem
        rcases List.mem_cons.1 hmem with h1 | h1
        · exact hx h1.symm
        · simp only [List.length_cons] at hl
          apply ih xs (by omega) _ h1
          rw [← onlyNEscapes_cons_ne hx xs]
          exact h

theorem subUnicodeEscapesAux_id :
    ∀ (fuel : Nat) (l : List Nat), (92 : Nat) ∉ l →
      subUnicodeEscapesAux fuel l = l := by
  intro fuel
  induction fuel with
  | zero => intro l _; rfl
  | succ fuel ih =>
    intro l hl
    match l with
    | [] => rfl
    | c :: rest =>
      have hc : c ≠ 92 := fun h => hl (h ▸ List.mem_cons_self c rest)
      rw [subUnicodeEscapesAux, if_neg hc]
      congr 1
      exact ih rest (fun h => hl (List.mem_cons_of_mem c h))

theorem subHexEscapesAux_id :
    ∀ (fuel : Nat) (l : List Nat), (92 : Nat) ∉ l →
      subHexEscapesAux fuel l = l := by
  intro fuel
  induction fuel with
  | zero => intro l _; rfl
  | succ fuel ih =>
    intro l hl
    match l with
    | [] => rfl
    | c :: rest =>
      have hc : c ≠ 92 := fun h => hl (h ▸ List.mem_cons_self c rest)
      rw [subHexEscapesAux, if_neg hc]
      congr 1
      exact ih rest (fun h => hl (List.mem_cons_of_mem c h))

/-- The `encode/decode` validity check is the identity on Python strings: it
only deviates when `encode("utf-8")` fails (a surrogate is present), and then
`encode("latin-1")` fails too (surrogates exceed 255), so both `except` arms
return the input. -/
theorem pyUtf8RoundTrip_eq_self (v : List Nat) : pyUtf8RoundTrip v = v := by
  unfold pyUtf8RoundTrip
  by_cases h : hasSurrogate v = true
  · have hl : latin1Encodable v = false := by
      unfold hasSurrogate at h
      rw [List.any_eq_true] at h
      obtain ⟨c, hc, hrange⟩ := h
      simp only [Bool.and_eq_true, decide_eq_true_eq] at hrange
      unfold latin1Encodable
      rw [Bool.eq_false_iff, Ne, List.all_eq_true]
      intro hall
      have := hall c hc
      simp only [decide_eq_true_eq] at this
      omega
    simp [h, hl]
  · simp at h
    simp [h]

/-- On a value whose every backslash opens a `\n` escape, with no NUL
characters and some non-ASCII character, `decode_sql_string` is exactly
"replace `\n` by newline": the escaped-backslash protection pass, the other
escape replacements, the two regex passes and the validity check are all the
identity. -/
theorem decodeSqlString_manual_eq (v : List Nat)
    (honly : onlyNEscapes v = true) (hnul : (0 : Nat) ∉ v)
    (hna : ∃ c ∈ v, 128 ≤ c) (hinf : [92, 110] <:+: v) :
    decodeSqlString v = pyReplace [92, 110] [10] v := by
  have hnull : v ≠ [78, 85, 76, 76] := by
    rintro rfl
    obtain ⟨c, hc, h128⟩ := hna
    fin_cases hc <;> omega
  have hesc : hasEscapeSequences v = true := by
    unfold hasEscapeSequences
    have h1 : containsSeq [92, 110] v = true :=
      (containsSeq_eq_true_iff [92, 110] v).2 hinf
    simp [h1]
  have hascii : (v.all (fun c => c < 128)) = false := by
    obtain ⟨c, hc, h128⟩ := hna
    rw [Bool.eq_false_iff, Ne, List.all_eq_true]
    intro hall
    have := hall c hc
    simp only [decide_eq_true_eq] at this
    omega
  unfold decodeSqlString
  rw [if_neg hnull, if_neg (by simp [hesc]), if_neg (by simp [hascii])]
  have h1 : pyReplace [92, 92] backslashMarker v = v :=
    pyReplaceAux_bsbs_id backslashMarker v.length v honly
  rw [h1]
  have hno92 : (92 : Nat) ∉ pyReplace [92, 110] [10] v :=
    pyReplaceAux_bsn_no_bs v.length v le_rfl honly
  have hno0 : (0 : Nat) ∉ pyReplace [92, 110] [10] v := by
    intro hmem
    rcases pyReplaceAux_mem [92, 110] [10] v.length v 0 hmem with h | h
    · exact hnul h
    · simp at h
  have hr : pyReplace [92, 114] [13] (pyReplace [92, 110] [10] v)
      = pyReplace [92, 110] [10] v :=
    pyReplaceAux_head_notMem 92 [114] [13] _ _ hno92
  have ht : pyReplace [92, 116] [9] (pyReplace [92, 110] [10] v)
      = pyReplace [92, 110] [10] v :=
    pyReplaceAux_head_notMem 92 [116] [9] _ _ hno92
  have hq : pyReplace [92, 34] [34] (pyReplace [92, 110] [10] v)
      = pyReplace [92, 110] [10] v :=
    pyReplaceAux_head_notMem 92 [34] [34] _ _ hno92
  have ha : pyReplace [92, 39] [39] (pyReplace [92, 110] [10] v)
      = pyReplace [92, 110] [10] v :=
    pyReplaceAux_head_notMem 92 [39] [39] _ _ hno92
  have hm : pyReplace backslashMarker [92] (pyReplace [92, 110] [10] v)
      = pyReplace [92, 110] [10] v :=
    pyReplaceAux_head_notMem 0 [66, 65, 67, 75, 83, 76, 65, 83, 72, 0] [92]
      _ _ hno0
  rw [hr, ht, hq, ha, hm]
  rw [show subUnicodeEscapes (pyReplace [92, 110] [10] v)
      = pyReplace [92, 110] [10] v from subUnicodeEscapesAux_id _ _ hno92]
  rw [show subHexEscapes (pyReplace [92, 110] [10] v)
      = pyReplace [92, 110] [10] v from subHexEscapesAux_id _ _ hno92]
  exact pyUtf8RoundTrip_eq_self _

/-- C6 counterexample: the column value `é\\n` (an escaped backslash followed
by `n`) contains the two-character sequence backslash-`n` and a non-ASCII
codepoint, but decodes to `é\n` (escaped backslash restored, literal `n`) —
no newline character results, refuting the claim as stated. -/
theorem c6_decode_counterexample :
    containsSeq [92, 110] [233, 92, 92, 110] = true ∧
    (∃ c ∈ [233, 92, 92, 110], 128 ≤ c) ∧
    decodeSqlString [233, 92, 92, 110] = [233, 92, 110] ∧
    (10 : Nat) ∉ decodeSqlString [233, 92, 92, 110] := by
  refine ⟨by decide, ⟨233, by decide, by decide⟩, by decide, by decide⟩


theorem isHexDigitCp_lt_128 {c : Nat} (h : isHexDigitCp c = true) : c < 128 := by
  unfold isHexDigitCp at h
  simp only [Bool.or_eq_true, Bool.and_eq_true, decide_eq_true_eq] at h
  omega

theorem filter_cons_sublist_of (p : Nat → Bool) (x : Nat) {l1 l2 : List Nat}
    (h : List.Sublist (l1.filter p) (l2.filter p)) :
    List.Sublist ((x :: l1).filter p) ((x :: l2).filter p) := by
  rw [List.filter_cons, List.filter_cons]
  by_cases hx : p x = true
  · rw [if_pos hx, if_pos hx]
    exact List.Sublist.cons₂ x h
  · rw [if_neg hx, if_neg hx]
    exact h

theorem uEscapeArg_eq_some {rest : List Nat} {cp : Nat} {rest2 : List Nat}
    (h : uEscapeArg rest = some (cp, rest2)) :
    ∃ e1 e2 e3 e4, rest = 117 :: e1 :: e2 :: e3 :: e4 :: rest2 ∧
      isHexDigitCp e1 = true ∧ isHexDigitCp e2 = true ∧
      isHexDigitCp e3 = true ∧ isHexDigitCp e4 = true := by
  match rest with
  | [] => exact Option.noConfusion h
  | [a] => exact Option.noConfusion h
  | [a, b] => exact Option.noConfusion h
  | [a, b, c] => exact Option.noConfusion h
  | [a, b, c, d] => exact Option.noConfusion h
  | u :: d1 :: d2 :: d3 :: d4 :: r =>
    rw [uEscapeArg] at h
    split at h
    · rename_i hcond
      simp only [Bool.and_eq_true, decide_eq_true_eq] at hcond
      obtain ⟨⟨⟨⟨hu, h1⟩, h2⟩, h3⟩, h4⟩ := hcond
      injection h with h0
      injection h0 with hcp hrest
      exact ⟨d1, d2, d3, d4, by rw [hu, hrest], h1, h2, h3, h4⟩
    · exact Option.noConfusion h

theorem xEscapeArg_eq_some {rest : List Nat} {cp : Nat} {rest2 : List Nat}
    (h : xEscapeArg rest = some (cp, rest2)) :
    ∃ e1 e2, rest = 120 :: e1 :: e2 :: rest2 ∧
      isHexDigitCp e1 = true ∧ isHexDigitCp e2 = true := by
  match rest with
  | [] => exact Option.noConfusion h
  | [a] => exact Option.noConfusion h
  | [a, b] => exact Option.noConfusion h
  | u :: d1 :: d2 :: r =>
    rw [xEscapeArg] at h
    split at h
    · rename_i hcond
      simp only [Bool.and_eq_true, decide_eq_true_eq] at hcond
      obtain ⟨⟨hu, h1⟩, h2⟩ := hcond
      injection h with h0
      injection h0 with hcp hrest
      exact ⟨d1, d2, by rw [hu, hrest], h1, h2⟩
    · exact Option.noConfusion h

/-- A character that is never part of a `\\` match survives `replace` (it is
neither deleted nor part of a consumed pattern occurrence). -/
theorem pyReplaceAux_mem_of_not_mem_sub (sub rep : List Nat) (c : Nat)
    (hc : c ∉ sub) :
    ∀ (fuel : Nat) (l : List Nat), c ∈ l → c ∈ pyReplaceAux sub rep fuel l := by
  intro fuel
  induction fuel with
  | zero => intro l h; exact h
  | succ fuel ih =>
    intro l h
    match l with
    | [] => simp at h
    | x :: xs =>
      rw [pyReplaceAux]
      by_cases hmatch : sub ≠ [] ∧ sub <+: x :: xs
      · rw [if_pos hmatch]
        obtain ⟨t, ht⟩ := hmatch.2
        have hdrop : (x :: xs).drop sub.length = t := by
          rw [← ht]
          exact List.drop_left sub t
        rw [hdrop]
        refine List.mem_append.2 (Or.inr (ih t ?_))
        rw [← ht] at h
        rcases List.mem_append.1 h with h1 | h1
        · exact absurd h1 hc
        · exact h1
      · rw [if_neg hmatch]
        rcases List.mem_cons.1 h with h1 | h1
        · exact List.mem_cons.2 (Or.inl h1)
        · exact List.mem_cons_of_mem x (ih xs h1)

/-- The escaped-backslash protection pass cannot consume the backslash of a
real `\n` escape: when the `\n` is preceded by an even run of backslashes
(and whatever comes before the run does not end in a backslash), the `\\`
matches pair up the run and the final `92, 110` survives verbatim. -/
theorem pyReplaceAux_bsbs_keeps_escape (rep : List Nat) :
    ∀ (fuel : Nat) (a : List Nat) (k : Nat) (b : List Nat),
      (a ++ (List.replicate (2 * k) 92 ++ 92 :: 110 :: b)).length ≤ fuel →
      a.getLast? ≠ some 92 →
      [92, 110] <:+:
        pyReplaceAux [92, 92] rep fuel
          (a ++ (List.replicate (2 * k) 92 ++ 92 :: 110 :: b)) := by
  intro fuel
  induction fuel with
  | zero =>
    intro a k b hlen _
    simp only [List.length_append, List.length_replicate, List.length_cons,
      Nat.le_zero] at hlen
    omega
  | succ fuel ih =>
    intro a k b hlen hlast
    match a with
    | [] =>
      rcases k with _ | j
      · simp only [Nat.mul_zero, List.replicate_zero, List.nil_append] at hlen ⊢
        have hnm : ¬ (([92, 92] : List Nat) ≠ [] ∧ [92, 92] <+: 92 :: 110 :: b) := by
          rintro ⟨-, t, ht⟩
          simp at ht
        rw [pyReplaceAux, if_neg hnm]
        rcases fuel with _ | f
        · exact ⟨[], b, rfl⟩
        · have hnm2 : ¬ (([92, 92] : List Nat) ≠ [] ∧ [92, 92] <+: 110 :: b) := by
            rintro ⟨-, t, ht⟩
            simp at ht
          rw [pyReplaceAux, if_neg hnm2]
          exact ⟨[], pyReplaceAux [92, 92] rep f b, rfl⟩
      · have hre : List.replicate (2 * (j + 1)) 92
            = 92 :: 92 :: List.replicate (2 * j) 92 := by
          have h2 : 2 * (j + 1) = (2 * j + 1) + 1 := by ring
          rw [h2, List.replicate_succ, List.replicate_succ]
        rw [List.nil_append, hre] at hlen ⊢
        simp only [List.cons_append] at hlen ⊢
        have hm : (([92, 92] : List Nat) ≠ [] ∧
            [92, 92] <+: 92 :: 92 :: (List.replicate (2 * j) 92 ++ 92 :: 110 :: b)) :=
          ⟨by simp, ⟨List.replicate (2 * j) 92 ++ 92 :: 110 :: b, rfl⟩⟩
        rw [pyReplaceAux, if_pos hm]
        have hdrop : ((92 :: 92 :: (List.replicate (2 * j) 92 ++ 92 :: 110 :: b)).drop
            ([92, 92] : List Nat).length)
            = List.replicate (2 * j) 92 ++ 92 :: 110 :: b := rfl
        rw [hdrop]
        have hrec : [92, 110] <:+: pyReplaceAux [92, 92] rep fuel
            ([] ++ (List.replicate (2 * j) 92 ++ 92 :: 110 :: b)) := by
          apply ih
          · simp only [List.nil_append, List.length_append, List.length_replicate,
              List.length_cons] at hlen ⊢
            omega
          · simp
        rw [List.nil_append] at hrec
        exact hrec.trans (List.suffix_append rep _).isInfix
    | x :: a2 =>
      simp only [List.cons_append] at hlen ⊢
      by_cases hmatch : (([92, 92] : List Nat) ≠ [] ∧
          [92, 92] <+: x :: (a2 ++ (List.replicate (2 * k) 92 ++ 92 :: 110 :: b)))
      · obtain ⟨t, ht⟩ := hmatch.2
        simp only [List.cons_append, List.nil_append, List.cons.injEq] at ht
        obtain ⟨hx, ht2⟩ := ht
        rcases a2 with _ | ⟨y, a3⟩
        · exfalso
          apply hlast
          rw [List.getLast?_singleton, ← hx]
        · rw [pyReplaceAux, if_pos hmatch]
          have hdrop : ((x :: ((y :: a3) ++ (List.replicate (2 * k) 92 ++ 92 :: 110 :: b))).drop
              ([92, 92] : List Nat).length)
              = a3 ++ (List.replicate (2 * k) 92 ++ 92 :: 110 :: b) := rfl
          rw [hdrop]
          have hlast3 : a3.getLast? ≠ some 92 := by
            rcases a3 with _ | ⟨z, a4⟩
            · simp
            · rw [List.getLast?_cons_cons, List.getLast?_cons_cons] at hlast
              exact hlast
          refine (ih a3 k b ?_ hlast3).trans (List.suffix_append rep _).isInfix
          simp only [List.length_append, List.length_cons,
            List.length_replicate] at hlen ⊢
          omega
      · rw [pyReplaceAux, if_neg hmatch]
        have hlast2 : a2.getLast? ≠ some 92 := by
          rcases a2 with _ | ⟨y, a3⟩
          · simp
          · rw [List.getLast?_cons_cons] at hlast
            exact hlast
        refine List.IsInfix.trans (ih a2 k b ?_ hlast2) ?_
        · simp only [List.length_append, List.length_cons,
            List.length_replicate] at hlen ⊢
          omega
        · exact (List.suffix_cons x _).isInfix

/-- A codepoint that is not a backslash, not `u` and not a hex digit can
never be consumed by the `\uXXXX` regex pass. -/
theorem subUnicodeEscapesAux_mem (c : Nat) (hc92 : c ≠ 92) (hc117 : c ≠ 117)
    (hchex : isHexDigitCp c = false) :
    ∀ (fuel : Nat) (l : List Nat), c ∈ l → c ∈ subUnicodeEscapesAux fuel l := by
  intro fuel
  induction fuel with
  | zero => intro l h; exact h
  | succ fuel ih =>
    intro l h
    match l with
    | [] => simp at h
    | x :: rest =>
      rw [subUnicodeEscapesAux]
      by_cases hx : x = 92
      · rw [if_pos hx]
        split
        · rename_i cp rest2 hu
          obtain ⟨e1, e2, e3, e4, hrest, hh1, hh2, hh3, hh4⟩ := uEscapeArg_eq_some hu
          rcases List.mem_cons.1 h with h1 | h1
          · exact absurd (h1.trans hx) hc92
          · rw [hrest] at h1
            simp only [List.mem_cons] at h1
            rcases h1 with h1 | h1 | h1 | h1 | h1 | h1
            · exact absurd h1 hc117
            · rw [h1, hh1] at hchex
              exact Bool.noConfusion hchex
            · rw [h1, hh2] at hchex
              exact Bool.noConfusion hchex
            · rw [h1, hh3] at hchex
              exact Bool.noConfusion hchex
            · rw [h1, hh4] at hchex
              exact Bool.noConfusion hchex
            · exact List.mem_cons_of_mem cp (ih rest2 h1)
        · rename_i hu
          rcases List.mem_cons.1 h with h1 | h1
          · exact List.mem_cons.2 (Or.inl h1)
          · exact List.mem_cons_of_mem x (ih rest h1)
      · rw [if_neg hx]
        rcases List.mem_cons.1 h with h1 | h1
        · exact List.mem_cons.2 (Or.inl h1)
        · exact List.mem_cons_of_mem x (ih rest h1)

/-- A codepoint that is not a backslash, not `x` and not a hex digit can
never be consumed by the `\xXX` regex pass. -/
theorem subHexEscapesAux_mem (c : Nat) (hc92 : c ≠ 92) (hc120 : c ≠ 120)
    (hchex : isHexDigitCp c = false) :
    ∀ (fuel : Nat) (l : List Nat), c ∈ l → c ∈ subHexEscapesAux fuel l := by
  intro fuel
  induction fuel with
  | zero => intro l h; exact h
  | succ fuel ih =>
    intro l h
    match l with
    | [] => simp at h
    | x :: rest =>
      rw [subHexEscapesAux]
      by_cases hx : x = 92
      · rw [if_pos hx]
        split
        · rename_i cp rest2 hu
          obtain ⟨e1, e2, hrest, hh1, hh2⟩ := xEscapeArg_eq_some hu
          rcases List.mem_cons.1 h with h1 | h1
          · exact absurd (h1.trans hx) hc92
          · rw [hrest] at h1
            simp only [List.mem_cons] at h1
            rcases h1 with h1 | h1 | h1 | h1
            · exact absurd h1 hc120
            · rw [h1, hh1] at hchex
              exact Bool.noConfusion hchex
            · rw [h1, hh2] at hchex
              exact Bool.noConfusion hchex
            · exact List.mem_cons_of_mem cp (ih rest2 h1)
        · rename_i hu
          rcases List.mem_cons.1 h with h1 | h1
          · exact List.mem_cons.2 (Or.inl h1)
          · exact List.mem_cons_of_mem x (ih rest h1)
      · rw [if_neg hx]
        rcases List.mem_cons.1 h with h1 | h1
        · exact List.mem_cons.2 (Or.inl h1)
        · exact List.mem_cons_of_mem x (ih rest h1)

/-- The `\uXXXX` pass only consumes ASCII characters (backslash, `u`, hex
digits), so the non-ASCII codepoints of the input appear unchanged and in
order in the output (new ones may be inserted by decoded escapes). -/
theorem subUnicodeEscapesAux_filter_sublist :
    ∀ (fuel : Nat) (l : List Nat),
      List.Sublist (l.filter (fun c => decide (128 ≤ c)))
        ((subUnicodeEscapesAux fuel l).filter (fun c => decide (128 ≤ c))) := by
  intro fuel
  induction fuel with
  | zero => intro l; exact List.Sublist.refl _
  | succ fuel ih =>
    intro l
    match l with
    | [] => exact List.Sublist.refl _
    | x :: rest =>
      rw [subUnicodeEscapesAux]
      by_cases hx : x = 92
      · rw [if_pos hx]
        split
        · rename_i cp rest2 hu
          obtain ⟨e1, e2, e3, e4, hrest, hh1, hh2, hh3, hh4⟩ := uEscapeArg_eq_some hu
          subst hx
          rw [hrest]
          have hsplit : (92 :: 117 :: e1 :: e2 :: e3 :: e4 :: rest2 : List Nat)
              = [92, 117, e1, e2, e3, e4] ++ rest2 := rfl
          rw [hsplit, List.filter_append]
          have hnil : ([92, 117, e1, e2, e3, e4] : List Nat).filter
              (fun c => decide (128 ≤ c)) = [] := by
            rw [List.filter_eq_nil_iff]
            intro d hd
            have hb1 := isHexDigitCp_lt_128 hh1
            have hb2 := isHexDigitCp_lt_128 hh2
            have hb3 := isHexDigitCp_lt_128 hh3
            have hb4 := isHexDigitCp_lt_128 hh4
            simp only [List.mem_cons, List.not_mem_nil, or_false] at hd
            simp only [decide_eq_true_eq]
            rcases hd with rfl | rfl | rfl | rfl | rfl | rfl <;> omega
          rw [hnil, List.nil_append]
          exact (ih rest2).trans
            (List.Sublist.filter _ (List.Sublist.cons cp (List.Sublist.refl _)))
        · rename_i hu
          exact filter_cons_sublist_of _ x (ih rest)
      · rw [if_neg hx]
        exact filter_cons_sublist_of _ x (ih rest)

/-- The `\xXX` pass only consumes ASCII characters, so the non-ASCII
codepoints of the input appear unchanged and in order in the output. -/
theorem subHexEscapesAux_filter_sublist :
    ∀ (fuel : Nat) (l : List Nat),
      List.Sublist (l.filter (fun c => decide (128 ≤ c)))
        ((subHexEscapesAux fuel l).filter (fun c => decide (128 ≤ c))) := by
  intro fuel
  induction fuel with
  | zero => intro l; exact List.Sublist.refl _
  | succ fuel ih =>
    intro l
    match l with
    | [] => exact List.Sublist.refl _
    | x :: rest =>
      rw [subHexEscapesAux]
      by_cases hx : x = 92
      · rw [if_pos hx]
        split
        · rename_i cp rest2 hu
          obtain ⟨e1, e2, hrest, hh1, hh2⟩ := xEscapeArg_eq_some hu
          subst hx
          rw [hrest]
          have hsplit : (92 :: 120 :: e1 :: e2 :: rest2 : List Nat)
              = [92, 120, e1, e2] ++ rest2 := rfl
          rw [hsplit, List.filter_append]
          have hnil : ([92, 120, e1, e2] : List Nat).filter
              (fun c => decide (128 ≤ c)) = [] := by
            rw [List.filter_eq_nil_iff]
            intro d hd
            have hb1 := isHexDigitCp_lt_128 hh1
            have hb2 := isHexDigitCp_lt_128 hh2
            simp only [List.mem_cons, List.not_mem_nil, or_false] at hd
            simp only [decide_eq_true_eq]
            rcases hd with rfl | rfl | rfl | rfl <;> omega
          rw [hnil, List.nil_append]
          exact (ih rest2).trans
            (List.Sublist.filter _ (List.Sublist.cons cp (List.Sublist.refl _)))
        · rename_i hu
          exact filter_cons_sublist_of _ x (ih rest)
      · rw [if_neg hx]
        exact filter_cons_sublist_of _ x (ih rest)

/-- C6 (amended): for every SQL column value containing a `\n` escape whose
backslash is not itself escaped (the pair is preceded by an even number of
consecutive backslashes) and at least one non-ASCII codepoint,
`decode_sql_string` returns a string that contains an actual newline
character, and the value's non-ASCII codepoints all appear in the result
unchanged and in their original order (the UTF-8 re-encode/decode is the
identity on them; escape decoding may insert further codepoints, e.g. from
`\uXXXX` escapes). -/
theorem c6_decode_real_newline_escape (v a : List Nat) (k : Nat) (b : List Nat)
    (hv : v = a ++ (List.replicate (2 * k) 92 ++ 92 :: 110 :: b))
    (hlast : a.getLast? ≠ some 92)
    (hna : ∃ c ∈ v, 128 ≤ c) :
    (10 : Nat) ∈ decodeSqlString v ∧
    List.Sublist (v.filter (fun c => decide (128 ≤ c)))
      ((decodeSqlString v).filter (fun c => decide (128 ≤ c))) := by
  have hnull : v ≠ [78, 85, 76, 76] := by
    rintro rfl
    obtain ⟨c, hc, h128⟩ := hna
    fin_cases hc <;> omega
  have hinf : [92, 110] <:+: v := by
    rw [hv]
    exact ⟨a ++ List.replicate (2 * k) 92, b, by simp⟩
  have hesc : hasEscapeSequences v = true := by
    unfold hasEscapeSequences
    have h1 : containsSeq [92, 110] v = true :=
      (containsSeq_eq_true_iff [92, 110] v).2 hinf
    simp [h1]
  have hascii : (v.all (fun c => c < 128)) = false := by
    obtain ⟨c, hc, h128⟩ := hna
    rw [Bool.eq_false_iff, Ne, List.all_eq_true]
    intro hall
    have := hall c hc
    simp only [decide_eq_true_eq] at this
    omega
  have hbranch : decodeSqlString v
      = pyUtf8RoundTrip
          (subHexEscapes (subUnicodeEscapes
            (pyReplace backslashMarker [92]
              (pyReplace [92, 39] [39]
                (pyReplace [92, 34] [34]
                  (pyReplace [92, 116] [9]
                    (pyReplace [92, 114] [13]
                      (pyReplace [92, 110] [10]
                        (pyReplace [92, 92] backslashMarker v))))))))) := by
    unfold decodeSqlString
    rw [if_neg hnull, if_neg (by simp [hesc]), if_neg (by simp [hascii])]
  rw [hbranch, pyUtf8RoundTrip_eq_self]
  have hinf1 : [92, 110] <:+: pyReplace [92, 92] backslashMarker v := by
    rw [hv]
    exact pyReplaceAux_bsbs_keeps_escape backslashMarker
      (a ++ (List.replicate (2 * k) 92 ++ 92 :: 110 :: b)).length a k b
      le_rfl hlast
  constructor
  · exact subHexEscapesAux_mem 10 (by decide) (by decide) (by decide) _ _
      (subUnicodeEscapesAux_mem 10 (by decide) (by decide) (by decide) _ _
        (pyReplaceAux_mem_of_not_mem_sub backslashMarker [92] 10 (by decide) _ _
          (pyReplaceAux_mem_of_not_mem_sub [92, 39] [39] 10 (by decide) _ _
            (pyReplaceAux_mem_of_not_mem_sub [92, 34] [34] 10 (by decide) _ _
              (pyReplaceAux_mem_of_not_mem_sub [92, 116] [9] 10 (by decide) _ _
                (pyReplaceAux_mem_of_not_mem_sub [92, 114] [13] 10 (by decide) _ _
                  (pyReplaceAux_emit [92, 110] [10] (by simp) 10 (by simp)
                    _ _ le_rfl hinf1)))))))
  · have hchain :
        (pyReplace backslashMarker [92]
          (pyReplace [92, 39] [39]
            (pyReplace [92, 34] [34]
              (pyReplace [92, 116] [9]
                (pyReplace [92, 114] [13]
                  (pyReplace [92, 110] [10]
                    (pyReplace [92, 92] backslashMarker v))))))).filter
          (fun c => decide (128 ≤ c)) = v.filter (fun c => decide (128 ≤ c)) := by
      simp only [pyReplace]
      rw [pyReplaceAux_filter_nonAscii backslashMarker [92] (by decide) (by decide),
        pyReplaceAux_filter_nonAscii [92, 39] [39] (by decide) (by decide),
        pyReplaceAux_filter_nonAscii [92, 34] [34] (by decide) (by decide),
        pyReplaceAux_filter_nonAscii [92, 116] [9] (by decide) (by decide),
        pyReplaceAux_filter_nonAscii [92, 114] [13] (by decide) (by decide),
        pyReplaceAux_filter_nonAscii [92, 110] [10] (by decide) (by decide),
        pyReplaceAux_filter_nonAscii [92, 92] backslashMarker (by decide) (by decide)]
    rw [← hchain]
    refine List.Sublist.trans ?_ (subHexEscapesAux_filter_sublist _ _)
    exact subUnicodeEscapesAux_filter_sublist _ _

/-- Witness for `c6_decode_real_newline_escape`: the value `é\r\n` (e-acute,
a `\r` escape, a real `\n` escape) decodes with a newline present and the
non-ASCII codepoint preserved. -/
theorem c6_decode_real_newline_escape_witness :
    (10 : Nat) ∈ decodeSqlString [233, 92, 114, 92, 110] ∧
    List.Sublist
      (([233, 92, 114, 92, 110] : List Nat).filter (fun c => decide (128 ≤ c)))
      ((decodeSqlString [233, 92, 114, 92, 110]).filter
        (fun c => decide (128 ≤ c))) :=
  c6_decode_real_newline_escape [233, 92, 114, 92, 110] [233, 92, 114] 0 []
    (by decide) (by decide) ⟨233, by decide, by decide⟩

end Spec2Proof
